import Mathlib

/-! # HelloBox2D: unit conversion, entity registries and the simulation loop

A shallow embedding of `src/main.cpp`.

* `float` values are rationals in the main development (arithmetic without rounding,
  `float` literals read as the decimals written); the namespace `F32` further down models
  the unit converters and the geometry of the two constructors in IEEE-754 binary32 with
  round-to-nearest-even, where rounding is the point.
* Box2D and raylib are external.  The physics world is an abstract state `W` threaded
  through the calls that take a `b2WorldId`; the library entry points the program uses are
  the fields of `Engine W`.
* The globals `Box::m_boxes`, `Platform::platforms` and the local `boxClock` of `main`
  are the fields of `State W`.
* One iteration of the `while` loop of `main` is `loopBody`; what the windowing library
  and the random device report during that iteration is a `FrameInput`.
-/

namespace HelloBox2D

/-! ## Compile-time constants -/

def windowWidth : Int := 640
def windowHeight : Int := 480
def ppm : ℚ := 100
def timeStep : ℚ := 1 / 60
def subStep : Int := 4

/-! ## Library value types -/

/-- The raylib `Vector2`. -/
structure Vector2 where
  x : ℚ
  y : ℚ
  deriving DecidableEq

/-- The raylib `Rectangle`. -/
structure Rectangle where
  x : ℚ
  y : ℚ
  width : ℚ
  height : ℚ
  deriving DecidableEq

/-- The raylib colours the program uses. -/
inductive Color where
  | BLACK
  | WHITE
  | RED
  deriving DecidableEq

/-- The Box2D `b2Vec2`. -/
structure b2Vec2 where
  x : ℚ
  y : ℚ
  deriving DecidableEq

/-- The Box2D `b2Rot`: cosine and sine of the angle, in this order. -/
structure b2Rot where
  c : ℚ
  s : ℚ
  deriving DecidableEq

/-- The Box2D constant `b2Rot_identity`, the rotation by the zero angle. -/
def b2Rot_identity : b2Rot := ⟨1, 0⟩

inductive b2BodyType where
  | b2_staticBody
  | b2_kinematicBody
  | b2_dynamicBody
  deriving DecidableEq

/-- The two fields of `b2BodyDef` the program writes. -/
structure b2BodyDef where
  type : b2BodyType
  position : b2Vec2
  deriving DecidableEq

structure b2SurfaceMaterial where
  friction : ℚ
  restitution : ℚ
  deriving DecidableEq

/-- The field of `b2ShapeDef` the program writes. -/
structure b2ShapeDef where
  material : b2SurfaceMaterial
  deriving DecidableEq

/-- A box-shaped `b2Polygon`, identified by the half-extents it was made from. -/
structure b2Polygon where
  hx : ℚ
  hy : ℚ
  deriving DecidableEq

/-- The Box2D `b2MakeBox (halfWidth, halfHeight)`. -/
def b2MakeBox (halfWidth halfHeight : ℚ) : b2Polygon := ⟨halfWidth, halfHeight⟩

/-- Body handles. -/
abbrev b2BodyId := Nat

/-- The Box2D entry points and library constants used by `main.cpp`, over a world state `W`. -/
structure Engine (W : Type) where
  b2DefaultBodyDef : b2BodyDef
  b2DefaultShapeDef : b2ShapeDef
  /-- World creation from the default world definition with the given gravity. -/
  b2CreateWorld : b2Vec2 → W
  b2CreateBody : W → b2BodyDef → b2BodyId × W
  b2CreatePolygonShape : W → b2BodyId → b2ShapeDef → b2Polygon → W
  b2World_Step : W → ℚ → Int → W
  b2Body_GetPosition : W → b2BodyId → b2Vec2
  b2Body_GetRotation : W → b2BodyId → b2Rot
  b2Rot_GetAngle : b2Rot → ℚ
  /-- The raylib constant `RAD2DEG`. -/
  RAD2DEG : ℚ

/-! ## Unit conversion (`main.cpp` lines 13-27) -/

def m2PxVec (vec : b2Vec2) : Vector2 := ⟨vec.x * ppm, vec.y * ppm⟩

def px2MVec (vec : Vector2) : b2Vec2 := ⟨vec.x / ppm, vec.y / ppm⟩

def m2Px (n : ℚ) : ℚ := n * ppm

def px2M (n : ℚ) : ℚ := n / ppm

/-! ## Random sizes (`main.cpp` lines 29-35) -/

/-- The function `getRand`.  Every call seeds a fresh `std::mt19937` from
`std::random_device`, so the result is not a function of the program state: `rd` is the
integer that `distribution(gen)` hands back on this call. -/
def getRand (_min _max : Int) (rd : Int) : Int := rd

/-! ## Draw calls -/

/-- The raylib draw calls issued between `BeginDrawing` and `EndDrawing`. -/
inductive DrawCmd where
  | ClearBackground (color : Color)
  | DrawRectangle (posX posY width height : Int) (color : Color)
  | DrawRectanglePro (rec : Rectangle) (origin : Vector2) (rotation : ℚ) (color : Color)
  deriving DecidableEq

/-! ## Platforms (`main.cpp` lines 37-93) -/

structure Platform where
  m_X : Int
  m_Y : Int
  m_width : Int
  m_height : Int
  m_position : b2Vec2
  m_bodyDef : b2BodyDef
  m_body : b2BodyId
  m_boundingBox : b2Polygon
  m_boundingBoxSize : b2Vec2
  m_shapeDef : b2ShapeDef
  deriving DecidableEq

/-- The constructor `Platform::Platform`: returns the constructed object, the world after
the two engine calls, and the registry after `platforms.emplace_back(*this)`.  The
geometry is computed without rounding here; `F32.Platform.m_position` and
`F32.Platform.m_boundingBoxSize` are the same two fields in binary32. -/
def Platform.ctor {W : Type} (E : Engine W) (X Y width height : Int) (world : W)
    (platforms : List Platform) : Platform × W × List Platform :=
  let m_X := X
  let m_Y := Y
  let m_width := width
  let m_height := height
  let m_bodyDef := E.b2DefaultBodyDef
  let m_position := px2MVec ⟨(m_X : ℚ) + (m_width : ℚ) / 2, (m_Y : ℚ) + (m_height : ℚ) / 2⟩
  let m_bodyDef := { m_bodyDef with position := m_position }
  let m_bodyDef := { m_bodyDef with type := b2BodyType.b2_staticBody }
  let created := E.b2CreateBody world m_bodyDef
  let m_body := created.1
  let m_boundingBoxSize := px2MVec ⟨(m_width : ℚ) / 2, (m_height : ℚ) / 2⟩
  let m_boundingBox := b2MakeBox m_boundingBoxSize.x m_boundingBoxSize.y
  let m_shapeDef := E.b2DefaultShapeDef
  let world := E.b2CreatePolygonShape created.2 m_body m_shapeDef m_boundingBox
  let this : Platform :=
    { m_X := m_X, m_Y := m_Y, m_width := m_width, m_height := m_height,
      m_position := m_position, m_bodyDef := m_bodyDef, m_body := m_body,
      m_boundingBox := m_boundingBox, m_boundingBoxSize := m_boundingBoxSize,
      m_shapeDef := m_shapeDef }
  (this, world, platforms ++ [this])

def Platform.drawPlatforms (platforms : List Platform) : List DrawCmd :=
  platforms.map fun platform =>
    DrawCmd.DrawRectangle platform.m_X platform.m_Y platform.m_width platform.m_height
      Color.WHITE

/-! ## Boxes (`main.cpp` lines 95-173) -/

structure Box where
  m_X : Int
  m_Y : Int
  m_width : Int
  m_height : Int
  m_position : b2Vec2
  m_origin : Vector2
  m_rotation : b2Rot
  m_bodyDef : b2BodyDef
  m_body : b2BodyId
  m_boundingBox : b2Polygon
  m_boundingBoxSize : b2Vec2
  m_shapeDef : b2ShapeDef
  deriving DecidableEq

/-- The constructor `Box::Box`; `rdWidth` and `rdHeight` are the outcomes of its two
`getRand (4, 20)` calls.  Returns the constructed object and the world after the two
engine calls.  The geometry is computed without rounding here and the literals `0.40f`
and `0.10f` are read as `2/5` and `1/10`; `F32.Box.m_position` and
`F32.Box.m_boundingBoxSize` are the two geometry fields in binary32. -/
def Box.ctor {W : Type} (E : Engine W) (X Y : Int) (rdWidth rdHeight : Int) (world : W) :
    Box × W :=
  let m_X := X
  let m_Y := Y
  let m_width := getRand 4 20 rdWidth
  let m_height := getRand 4 20 rdHeight
  let m_rotation : b2Rot := ⟨0, 0⟩
  let m_bodyDef := E.b2DefaultBodyDef
  let m_position := px2MVec ⟨(m_X : ℚ) + (m_width : ℚ) / 2, (m_Y : ℚ) + (m_height : ℚ) / 2⟩
  let m_bodyDef := { m_bodyDef with position := m_position }
  let m_bodyDef := { m_bodyDef with type := b2BodyType.b2_dynamicBody }
  let created := E.b2CreateBody world m_bodyDef
  let m_body := created.1
  let m_boundingBoxSize := px2MVec ⟨(m_width : ℚ) / 2, (m_height : ℚ) / 2⟩
  let m_boundingBox := b2MakeBox m_boundingBoxSize.x m_boundingBoxSize.y
  let m_shapeDef := E.b2DefaultShapeDef
  let m_shapeDef :=
    { m_shapeDef with material := { m_shapeDef.material with restitution := 2 / 5 } }
  let m_shapeDef :=
    { m_shapeDef with material := { m_shapeDef.material with friction := 1 / 10 } }
  let world := E.b2CreatePolygonShape created.2 m_body m_shapeDef m_boundingBox
  ({ m_X := m_X, m_Y := m_Y, m_width := m_width, m_height := m_height,
     m_position := m_position, m_origin := ⟨0, 0⟩, m_rotation := m_rotation,
     m_bodyDef := m_bodyDef, m_body := m_body, m_boundingBox := m_boundingBox,
     m_boundingBoxSize := m_boundingBoxSize, m_shapeDef := m_shapeDef }, world)

/-- The function `Box::generateBoxAtMouse`: the world after construction and the registry
after `m_boxes.emplace_back(box)`. -/
def Box.generateBoxAtMouse {W : Type} (E : Engine W) (mouseX mouseY : Int)
    (rdWidth rdHeight : Int) (world : W) (m_boxes : List Box) : W × List Box :=
  let built := Box.ctor E mouseX mouseY rdWidth rdHeight world
  (built.2, m_boxes ++ [built.1])

/-- One pass of the loop of `Box::updateBoxes`. -/
def Box.refresh {W : Type} (E : Engine W) (world : W) (box : Box) : Box :=
  { box with
    m_position := E.b2Body_GetPosition world box.m_body
    m_rotation := E.b2Body_GetRotation world box.m_body }

def Box.updateBoxes {W : Type} (E : Engine W) (world : W) (m_boxes : List Box) : List Box :=
  m_boxes.map (Box.refresh E world)

/-- One pass of the loop of `Box::drawBoxes`. -/
def Box.drawBox {W : Type} (E : Engine W) (box : Box) : DrawCmd :=
  let rect : Rectangle :=
    ⟨m2Px box.m_position.x, m2Px box.m_position.y, (box.m_width : ℚ), (box.m_height : ℚ)⟩
  let origin : Vector2 := ⟨(box.m_width : ℚ) / 2, (box.m_height : ℚ) / 2⟩
  let rotation := E.b2Rot_GetAngle box.m_rotation * E.RAD2DEG
  DrawCmd.DrawRectanglePro rect origin rotation Color.RED

def Box.drawBoxes {W : Type} (E : Engine W) (m_boxes : List Box) : List DrawCmd :=
  m_boxes.map (Box.drawBox E)

/-! ## The program state and `main` (`main.cpp` lines 175-214) -/

/-- The mutable state of the program: the world behind `worldId`, the two static
registries and the local `boxClock` of `main` (a C++ `int`; it stays within `0..3` on
every run from start-up, see `run_ticks`). -/
structure State (W : Type) where
  world : W
  m_boxes : List Box
  platforms : List Platform
  boxClock : Int

/-- What the environment reports during one loop iteration. -/
structure FrameInput where
  /-- The result of `IsMouseButtonDown (MOUSE_BUTTON_LEFT)`. -/
  mouseDown : Bool
  /-- The result of `GetMouseX ()`. -/
  mouseX : Int
  /-- The result of `GetMouseY ()`. -/
  mouseY : Int
  /-- The outcome of the first `getRand` call of a box built in this iteration. -/
  rdWidth : Int
  /-- The outcome of the second `getRand` call of a box built in this iteration. -/
  rdHeight : Int
  deriving DecidableEq

/-- Start-up, `main.cpp` lines 182-190: world creation, the two platforms, `boxClock = 0`. -/
def startup {W : Type} (E : Engine W) : State W :=
  let worldId := E.b2CreateWorld ⟨0, 10⟩
  let p1 := Platform.ctor E 30 420 250 30 worldId []
  let p2 := Platform.ctor E 280 310 320 30 p1.2.1 p1.2.2
  { world := p2.2.1, m_boxes := [], platforms := p2.2.2, boxClock := 0 }

/-- The update block, `main.cpp` lines 194-202. -/
def spawnPhase {W : Type} (E : Engine W) (s : State W) (inp : FrameInput) : State W :=
  if inp.mouseDown then
    if s.boxClock = 3 then
      let r := Box.generateBoxAtMouse E inp.mouseX inp.mouseY inp.rdWidth inp.rdHeight
        s.world s.m_boxes
      { s with world := r.1, m_boxes := r.2, boxClock := 0 }
    else
      { s with boxClock := s.boxClock + 1 }
  else s

/-- The physics step, `main.cpp` line 203. -/
def stepPhase {W : Type} (E : Engine W) (s : State W) : State W :=
  { s with world := E.b2World_Step s.world timeStep subStep }

/-- The pose refresh, `main.cpp` line 204. -/
def updatePhase {W : Type} (E : Engine W) (s : State W) : State W :=
  { s with m_boxes := Box.updateBoxes E s.world s.m_boxes }

/-- The drawing block, `main.cpp` lines 206-210. -/
def drawPhase {W : Type} (E : Engine W) (s : State W) : List DrawCmd :=
  DrawCmd.ClearBackground Color.BLACK ::
    (Box.drawBoxes E s.m_boxes ++ Platform.drawPlatforms s.platforms)

/-- One iteration of the `while` loop: the state when the iteration ends, which is also
the state the drawing block reads, and the draw calls issued. -/
def loopBody {W : Type} (E : Engine W) (s : State W) (inp : FrameInput) :
    State W × List DrawCmd :=
  let s3 := updatePhase E (stepPhase E (spawnPhase E s inp))
  (s3, drawPhase E s3)

/-- The loop run over the frames that pass before the window is closed. -/
def run {W : Type} (E : Engine W) (s : State W) (frames : List FrameInput) : State W :=
  frames.foldl (fun st inp => (loopBody E st inp).1) s

/-! ## Vocabulary of the statements -/

/-- The number of frames of a run in which the button is held. -/
def heldCount (frames : List FrameInput) : Nat :=
  frames.countP fun f => f.mouseDown

/-- A box with its cached pose blanked: everything about a box except the two fields
`Box::updateBoxes` writes. -/
def Box.erasePose (box : Box) : Box :=
  { box with m_position := ⟨0, 0⟩, m_rotation := ⟨0, 0⟩ }

/-- The pixel size of a box. -/
def Box.size (box : Box) : Int × Int := (box.m_width, box.m_height)

/-- Both sides of a box are within `4..20`. -/
def Box.sizeInBounds (box : Box) : Prop :=
  (4 ≤ box.m_width ∧ box.m_width ≤ 20) ∧ (4 ≤ box.m_height ∧ box.m_height ≤ 20)

instance (box : Box) : Decidable box.sizeInBounds := by
  unfold Box.sizeInBounds; infer_instance

/-- Both `getRand (4, 20)` calls of a frame keep the contract of the library distribution. -/
def FrameInput.randInRange (f : FrameInput) : Prop :=
  (4 ≤ getRand 4 20 f.rdWidth ∧ getRand 4 20 f.rdWidth ≤ 20) ∧
    (4 ≤ getRand 4 20 f.rdHeight ∧ getRand 4 20 f.rdHeight ≤ 20)

instance (f : FrameInput) : Decidable f.randInRange := by
  unfold FrameInput.randInRange; infer_instance

/-- The pixel rectangle of a platform. -/
def Platform.rect (p : Platform) : Int × Int × Int × Int :=
  (p.m_X, p.m_Y, p.m_width, p.m_height)

/-- The top-left corner of the rectangle raylib's `DrawRectanglePro (rec, origin, 0, _)`
fills: with no rotation the corner is `rec` moved back by `origin`. -/
def unrotatedTopLeft (rec : Rectangle) (origin : Vector2) : Vector2 :=
  ⟨rec.x - origin.x, rec.y - origin.y⟩

/-- The centre of the rectangle of size `rec.width` by `rec.height` with the given
top-left corner. -/
def centreOf (topLeft : Vector2) (rec : Rectangle) : Vector2 :=
  ⟨topLeft.x + rec.width / 2, topLeft.y + rec.height / 2⟩

/-! ## The converters and the constructor geometry in binary32

The converters of `main.cpp` lines 13-27 and the geometry the two constructors compute,
once more, now with the arithmetic of the C++ `float` type: IEEE-754 binary32, every
operation rounded to nearest, ties to even.

Every finite binary32 value is an integer multiple of `2 ^ (-149)`, the spacing of the
subnormals, so a finite value is the integer `Val` counting those units.  An operation
whose result is not finite (overflow, division by zero) returns `none`.  The two zeros
are not told apart. -/

namespace F32

/-- A finite binary32 value, in units of `2 ^ (-149)`. -/
abbrev Val := Int

/-- The number of units in `1.0f`. -/
def unitsPerOne : Nat := 2 ^ 149

/-- The integer nearest to `n / d`, ties to the even one. -/
def roundHalfEven (n d : Nat) : Nat :=
  if 2 * (n % d) < d then n / d
  else if d < 2 * (n % d) then n / d + 1
  else if (n / d) % 2 = 0 then n / d
  else n / d + 1

/-- Doubles the spacing `g` while a magnitude of `m` units needs more than 24 bits. -/
def quantumFrom (g m : Nat) : Nat → Nat
  | 0 => g
  | fuel + 1 => if 2 ^ 24 * g ≤ m then quantumFrom (2 * g) m fuel else g

/-- The spacing, in units, of the binary32 values around a magnitude of `m` units: one
unit up to `2 ^ 24` units (the subnormals and the first binade of normal values), then
doubling with every binade. -/
def quantum (m : Nat) : Nat := quantumFrom 1 m m

/-- The binary32 magnitude nearest to `n / d` units, `none` when it is beyond the largest
finite value `(2 ^ 24 - 1) * 2 ^ 104`. -/
def roundMag (n d : Nat) : Option Nat :=
  let k := roundHalfEven n (d * quantum (n / d)) * quantum (n / d)
  if k < 2 ^ 128 * unitsPerOne then some k else none

/-- The binary32 value nearest to the rational `n / d` units, for `d > 0`. -/
def roundToNearest (n : Int) (d : Nat) : Option Val :=
  match roundMag n.natAbs d with
  | none => none
  | some k => some (if n < 0 then -(k : Int) else (k : Int))

/-- The value `v` is a binary32 value: rounding leaves it alone. -/
def representable (v : Val) : Prop := roundToNearest v 1 = some v

instance (v : Val) : Decidable (representable v) := by
  unfold representable; infer_instance

/-- The rational value of a finite binary32 value. -/
def toRat (v : Val) : ℚ := (v : ℚ) / (unitsPerOne : ℚ)

/-- The `float` product `a * b`. -/
def mul (a b : Val) : Option Val := roundToNearest (a * b) unitsPerOne

/-- The `float` quotient `a / b`. -/
def div (a b : Val) : Option Val :=
  if b = 0 then none else roundToNearest (a * unitsPerOne * b.sign) b.natAbs

/-- The `float` with the integer value `i`, for `|i| ≤ 2 ^ 24`. -/
def ofInt (i : Int) : Val := i * unitsPerOne

/-- The constant `ppm = 100.0f`. -/
def ppm : Val := ofInt 100

def m2Px (n : Val) : Option Val := mul n ppm

def px2M (n : Val) : Option Val := div n ppm

/-- A `Vector2` or `b2Vec2` with finite binary32 components. -/
structure Vec where
  x : Val
  y : Val
  deriving DecidableEq

def m2PxVec (vec : Vec) : Option Vec :=
  match mul vec.x ppm, mul vec.y ppm with
  | some x, some y => some ⟨x, y⟩
  | _, _ => none

def px2MVec (vec : Vec) : Option Vec :=
  match div vec.x ppm, div vec.y ppm with
  | some x, some y => some ⟨x, y⟩
  | _, _ => none

/-- The conversion `static_cast<float>(i)` of a C++ `int`. -/
def castInt (i : Int) : Option Val := roundToNearest (i * unitsPerOne) 1

/-- The `float` sum `a + b`. -/
def add (a b : Val) : Option Val := roundToNearest (a + b) 1

/-- The binary32 value nearest to the rational `q`, ties to even; `none` when it is
beyond the finite range. -/
def nearest (q : ℚ) : Option Val := roundToNearest (q.num * unitsPerOne) q.den

/-- The pair of the binary32 values nearest to `x` and to `y`. -/
def nearestVec (x y : ℚ) : Option Vec :=
  match nearest x, nearest y with
  | some a, some b => some ⟨a, b⟩
  | _, _ => none

/-- The expression `static_cast<float>(p) + static_cast<float>(size) / 2.0f` of the two
constructors (`main.cpp` lines 62-63 and 123-124). -/
def centrePx (p size : Int) : Option Val :=
  (castInt p).bind fun fp =>
    (castInt size).bind fun fs =>
      (div fs (ofInt 2)).bind fun half => add fp half

/-- The expression `static_cast<float>(size) / 2.0f` of the two constructors (`main.cpp`
lines 70-71 and 132-133). -/
def halfPx (size : Int) : Option Val :=
  (castInt size).bind fun fs => div fs (ofInt 2)

/-- The call `px2MVec ({x, y})` on two computed components. -/
def px2MVecOf (x y : Option Val) : Option Vec :=
  x.bind fun x => y.bind fun y => px2MVec ⟨x, y⟩

/-- The field `m_position` as `Platform::Platform` computes it (`main.cpp` lines 61-63). -/
def Platform.m_position (X Y width height : Int) : Option Vec :=
  px2MVecOf (centrePx X width) (centrePx Y height)

/-- The field `m_boundingBoxSize` as `Platform::Platform` computes it (`main.cpp` lines
69-72). -/
def Platform.m_boundingBoxSize (width height : Int) : Option Vec :=
  px2MVecOf (halfPx width) (halfPx height)

/-- The field `m_position` as `Box::Box` computes it (`main.cpp` lines 117-125). -/
def Box.m_position (X Y rdWidth rdHeight : Int) : Option Vec :=
  px2MVecOf (centrePx X (getRand 4 20 rdWidth)) (centrePx Y (getRand 4 20 rdHeight))

/-- The field `m_boundingBoxSize` as `Box::Box` computes it (`main.cpp` lines 131-134). -/
def Box.m_boundingBoxSize (rdWidth rdHeight : Int) : Option Vec :=
  px2MVecOf (halfPx (getRand 4 20 rdWidth)) (halfPx (getRand 4 20 rdHeight))

end F32

/-! ## A reference engine

A small executable instance of `Engine`, used to run the program on concrete frames:
the world is the list of bodies, a body handle is an index into it, dynamic bodies fall
with constant velocity and nothing rotates. -/

def refEngine : Engine (List b2BodyDef) where
  b2DefaultBodyDef := ⟨b2BodyType.b2_staticBody, ⟨0, 0⟩⟩
  b2DefaultShapeDef := ⟨⟨3 / 5, 0⟩⟩
  b2CreateWorld := fun _ => []
  b2CreateBody := fun w d => (w.length, w ++ [d])
  b2CreatePolygonShape := fun w _ _ _ => w
  b2World_Step := fun w dt _ =>
    w.map fun d =>
      if d.type = b2BodyType.b2_dynamicBody then
        { d with position := ⟨d.position.x, d.position.y + 10 * dt⟩ }
      else d
  b2Body_GetPosition := fun w b => (w.getD b ⟨b2BodyType.b2_staticBody, ⟨0, 0⟩⟩).position
  b2Body_GetRotation := fun _ _ => b2Rot_identity
  b2Rot_GetAngle := fun _ => 0
  RAD2DEG := 57

/-- A frame with the left button held at pixel `(100, 100)`. -/
def heldFrame : FrameInput := ⟨true, 100, 100, 7, 12⟩

/-- A frame with the left button up. -/
def idleFrame : FrameInput := ⟨false, 100, 100, 7, 12⟩

/-- Four held frames: the fourth one spawns. -/
def fourHeld : List FrameInput := List.replicate 4 heldFrame

/-- The box in the registry of the reference run after `fourHeld`. -/
def demoBox : Box where
  m_X := 100
  m_Y := 100
  m_width := 7
  m_height := 12
  m_position := ⟨207 / 200, 92 / 75⟩
  m_origin := ⟨0, 0⟩
  m_rotation := ⟨1, 0⟩
  m_bodyDef := ⟨b2BodyType.b2_dynamicBody, ⟨207 / 200, 53 / 50⟩⟩
  m_body := 2
  m_boundingBox := ⟨7 / 200, 3 / 50⟩
  m_boundingBoxSize := ⟨7 / 200, 3 / 50⟩
  m_shapeDef := ⟨⟨1 / 10, 2 / 5⟩⟩

/-! ## Lemmas on one iteration -/

section Iteration

variable {W : Type} (E : Engine W)

theorem loopBody_boxClock (s : State W) (inp : FrameInput) :
    (loopBody E s inp).1.boxClock = (spawnPhase E s inp).boxClock := rfl

theorem loopBody_platforms (s : State W) (inp : FrameInput) :
    (loopBody E s inp).1.platforms = s.platforms := by
  simp only [loopBody, updatePhase, stepPhase, spawnPhase]
  split_ifs <;> rfl

theorem loopBody_boxes (s : State W) (inp : FrameInput) :
    (loopBody E s inp).1.m_boxes =
      Box.updateBoxes E (E.b2World_Step (spawnPhase E s inp).world timeStep subStep)
        (spawnPhase E s inp).m_boxes := rfl

theorem updateBoxes_length (world : W) (bs : List Box) :
    (Box.updateBoxes E world bs).length = bs.length := by
  simp [Box.updateBoxes]

theorem loopBody_length (s : State W) (inp : FrameInput) :
    (loopBody E s inp).1.m_boxes.length = (spawnPhase E s inp).m_boxes.length := by
  rw [loopBody_boxes, updateBoxes_length]

theorem spawnPhase_idle (s : State W) (inp : FrameInput) (h : inp.mouseDown = false) :
    spawnPhase E s inp = s := by
  simp [spawnPhase, h]

theorem spawnPhase_fire (s : State W) (inp : FrameInput) (h : inp.mouseDown = true)
    (hc : s.boxClock = 3) :
    (spawnPhase E s inp).boxClock = 0 ∧
      (spawnPhase E s inp).m_boxes =
        s.m_boxes ++ [(Box.ctor E inp.mouseX inp.mouseY inp.rdWidth inp.rdHeight s.world).1] := by
  simp [spawnPhase, h, hc, Box.generateBoxAtMouse]

theorem spawnPhase_tick (s : State W) (inp : FrameInput) (h : inp.mouseDown = true)
    (hc : s.boxClock ≠ 3) :
    (spawnPhase E s inp).boxClock = s.boxClock + 1 ∧
      (spawnPhase E s inp).m_boxes = s.m_boxes := by
  simp [spawnPhase, h, hc]

/-- The boxes after the update block: the old registry followed by at most one new box. -/
theorem spawnPhase_boxes (s : State W) (inp : FrameInput) :
    (spawnPhase E s inp).m_boxes =
      s.m_boxes ++
        (if inp.mouseDown = true ∧ s.boxClock = 3 then
          [(Box.ctor E inp.mouseX inp.mouseY inp.rdWidth inp.rdHeight s.world).1]
        else []) := by
  by_cases h : inp.mouseDown = true
  · by_cases hc : s.boxClock = 3
    · simp [(spawnPhase_fire E s inp h hc).2, h, hc]
    · simp [(spawnPhase_tick E s inp h hc).2, h, hc]
  · have h' : inp.mouseDown = false := by simpa using h
    simp [spawnPhase_idle E s inp h', h']

theorem run_nil (s : State W) : run E s [] = s := rfl

theorem run_cons (s : State W) (inp : FrameInput) (frames : List FrameInput) :
    run E s (inp :: frames) = run E (loopBody E s inp).1 frames := rfl

/-- Four times the number of boxes plus the throttle counter advances by one on every held
frame and stays put on every other frame, as long as the counter is within `0..3`. -/
theorem run_ticks (frames : List FrameInput) :
    ∀ s : State W, 0 ≤ s.boxClock → s.boxClock ≤ 3 →
      0 ≤ (run E s frames).boxClock ∧ (run E s frames).boxClock ≤ 3 ∧
        4 * ((run E s frames).m_boxes.length : Int) + (run E s frames).boxClock =
          4 * (s.m_boxes.length : Int) + s.boxClock + heldCount frames := by
  induction frames with
  | nil => intro s h0 h3; simp [run_nil, heldCount, h0, h3]
  | cons inp frames ih =>
    intro s h0 h3
    rw [run_cons]
    have hcnt : (heldCount (inp :: frames) : Int) =
        heldCount frames + (if inp.mouseDown = true then 1 else 0) := by
      simp only [heldCount, List.countP_cons]
      split_ifs <;> simp
    by_cases h : inp.mouseDown = true
    · by_cases hc : s.boxClock = 3
      · obtain ⟨e1, e2⟩ := spawnPhase_fire E s inp h hc
        have hl := loopBody_length E s inp
        have hk := loopBody_boxClock E s inp
        rw [e2] at hl
        rw [e1] at hk
        obtain ⟨a, b, c⟩ := ih (loopBody E s inp).1 (by omega) (by omega)
        refine ⟨a, b, ?_⟩
        rw [c, hcnt, hl, hk, if_pos h, hc]
        simp only [List.length_append, List.length_singleton]
        push_cast
        ring
      · obtain ⟨e1, e2⟩ := spawnPhase_tick E s inp h hc
        have hl := loopBody_length E s inp
        have hk := loopBody_boxClock E s inp
        rw [e2] at hl
        rw [e1] at hk
        obtain ⟨a, b, c⟩ := ih (loopBody E s inp).1 (by omega) (by omega)
        refine ⟨a, b, ?_⟩
        rw [c, hcnt, hl, hk, if_pos h]
        ring
    · have h' : inp.mouseDown = false := by simpa using h
      have e := spawnPhase_idle E s inp h'
      have hl := loopBody_length E s inp
      have hk := loopBody_boxClock E s inp
      rw [e] at hl hk
      obtain ⟨a, b, c⟩ := ih (loopBody E s inp).1 (by omega) (by omega)
      refine ⟨a, b, ?_⟩
      rw [c, hcnt, hl, hk, if_neg h]
      ring

theorem heldCount_all (frames : List FrameInput) (h : ∀ f ∈ frames, f.mouseDown = true) :
    heldCount frames = frames.length := by
  unfold heldCount
  rw [List.countP_eq_length]
  intro f hf
  simpa using h f hf

end Iteration

section Registries

variable {W : Type} (E : Engine W)

theorem refresh_erasePose (world : W) (box : Box) :
    (Box.refresh E world box).erasePose = box.erasePose := rfl

theorem refresh_size (world : W) (box : Box) :
    (Box.refresh E world box).size = box.size := rfl

theorem updateBoxes_erasePose (world : W) (bs : List Box) :
    (Box.updateBoxes E world bs).map Box.erasePose = bs.map Box.erasePose := by
  simp [Box.updateBoxes, Function.comp_def, refresh_erasePose]

theorem updateBoxes_size (world : W) (bs : List Box) :
    (Box.updateBoxes E world bs).map Box.size = bs.map Box.size := by
  simp [Box.updateBoxes, Function.comp_def, refresh_size]

theorem ctor_size (X Y rdWidth rdHeight : Int) (world : W) :
    (Box.ctor E X Y rdWidth rdHeight world).1.size =
      (getRand 4 20 rdWidth, getRand 4 20 rdHeight) := rfl

theorem loopBody_size (s : State W) (inp : FrameInput) :
    (loopBody E s inp).1.m_boxes.map Box.size =
      s.m_boxes.map Box.size ++
        (if inp.mouseDown = true ∧ s.boxClock = 3 then
          [(getRand 4 20 inp.rdWidth, getRand 4 20 inp.rdHeight)]
        else []) := by
  rw [loopBody_boxes, updateBoxes_size, spawnPhase_boxes, List.map_append]
  split_ifs <;> simp [ctor_size]

theorem run_size_prefix (frames : List FrameInput) :
    ∀ s : State W, s.m_boxes.map Box.size <+: (run E s frames).m_boxes.map Box.size := by
  induction frames with
  | nil => intro s; exact List.prefix_refl _
  | cons inp frames ih =>
    intro s
    rw [run_cons]
    refine List.IsPrefix.trans ?_ (ih _)
    rw [loopBody_size]
    exact List.prefix_append _ _

theorem sizeInBounds_iff (box : Box) :
    box.sizeInBounds ↔ (4 ≤ box.size.1 ∧ box.size.1 ≤ 20) ∧ (4 ≤ box.size.2 ∧ box.size.2 ≤ 20) :=
  Iff.rfl

theorem run_sizeInBounds (frames : List FrameInput) :
    ∀ s : State W, (∀ f ∈ frames, f.randInRange) → (∀ b ∈ s.m_boxes, b.sizeInBounds) →
      ∀ b ∈ (run E s frames).m_boxes, b.sizeInBounds := by
  induction frames with
  | nil => intro s _ hs; simpa [run_nil] using hs
  | cons inp frames ih =>
    intro s hf hs
    rw [run_cons]
    refine ih _ (fun f hf' => hf f (List.mem_cons_of_mem _ hf')) ?_
    intro b hb
    have hmem : b.size ∈ (loopBody E s inp).1.m_boxes.map Box.size := List.mem_map_of_mem _ hb
    rw [loopBody_size, List.mem_append] at hmem
    rw [sizeInBounds_iff]
    rcases hmem with h | h
    · obtain ⟨b', hb', e⟩ := List.mem_map.1 h
      rw [← e]
      exact (sizeInBounds_iff b').1 (hs b' hb')
    · split_ifs at h
      · rw [List.mem_singleton] at h
        rw [h]
        exact hf inp (List.mem_cons_self _ _)
      · simp at h

theorem run_platforms (frames : List FrameInput) :
    ∀ s : State W, (run E s frames).platforms = s.platforms := by
  induction frames with
  | nil => intro s; rfl
  | cons inp frames ih => intro s; rw [run_cons, ih, loopBody_platforms]

end Registries

/-! ## Rounding lemmas for binary32 -/

namespace F32

theorem roundHalfEven_err (n d : Nat) (hd : 0 < d) :
    2 * (roundHalfEven n d * d) ≤ 2 * n + d ∧ 2 * n ≤ 2 * (roundHalfEven n d * d) + d := by
  have h := Nat.div_add_mod n d
  have hr := Nat.mod_lt n hd
  have e1 : (n / d + 1) * d = d * (n / d) + d := by ring
  have e2 : n / d * d = d * (n / d) := by ring
  unfold roundHalfEven
  split_ifs <;> simp only [e1, e2] <;> omega

theorem quantumFrom_pos (m fuel : Nat) : ∀ g, 0 < g → 0 < quantumFrom g m fuel := by
  induction fuel with
  | zero => intro g hg; exact hg
  | succ fuel ih =>
    intro g hg
    simp only [quantumFrom]
    split_ifs
    · exact ih _ (by omega)
    · exact hg

theorem quantumFrom_le (m fuel : Nat) :
    ∀ g, quantumFrom g m fuel * 2 ^ 23 ≤ max m (g * 2 ^ 23) := by
  induction fuel with
  | zero => intro g; exact le_max_right _ _
  | succ fuel ih =>
    intro g
    simp only [quantumFrom]
    split_ifs with h
    · refine le_trans (ih (2 * g)) ?_
      have : 2 * g * 2 ^ 23 ≤ m := by
        have e : 2 * g * 2 ^ 23 = 2 ^ 24 * g := by ring
        omega
      exact le_trans (max_le le_rfl this) (le_max_left _ _)
    · exact le_max_right _ _

theorem quantumFrom_gt (m fuel : Nat) :
    ∀ g, m < 2 ^ 24 * g * 2 ^ fuel → m < 2 ^ 24 * quantumFrom g m fuel := by
  induction fuel with
  | zero => intro g h; simpa [quantumFrom] using h
  | succ fuel ih =>
    intro g h
    simp only [quantumFrom]
    split_ifs with hc
    · apply ih
      have e : 2 ^ 24 * (2 * g) * 2 ^ fuel = 2 ^ 24 * g * 2 ^ (fuel + 1) := by ring
      omega
    · omega

theorem quantumFrom_pow (m fuel : Nat) :
    ∀ e, ∃ e', quantumFrom (2 ^ e) m fuel = 2 ^ e' := by
  induction fuel with
  | zero => intro e; exact ⟨e, rfl⟩
  | succ fuel ih =>
    intro e
    simp only [quantumFrom]
    split_ifs
    · have := ih (e + 1)
      rwa [pow_succ, mul_comm] at this
    · exact ⟨e, rfl⟩

/-- The spacing chosen for a magnitude of `m` units is a power of two, equal to one unit
below `2 ^ 24` units and otherwise the one that leaves a 24-bit significand. -/
theorem quantum_spec (m : Nat) :
    (∃ e, quantum m = 2 ^ e) ∧ (quantum m = 1 ∨ quantum m * 2 ^ 23 ≤ m) ∧
      m < 2 ^ 24 * quantum m := by
  refine ⟨?_, ?_, ?_⟩
  · simpa using quantumFrom_pow m m 0
  · have h := quantumFrom_le m m 1
    have hp := quantumFrom_pos m m 1 one_pos
    unfold quantum
    rcases le_max_iff.1 h with h1 | h1
    · exact Or.inr h1
    · left
      have h2 : quantumFrom 1 m m ≤ 1 := Nat.le_of_mul_le_mul_right h1 (by positivity)
      omega
  · apply quantumFrom_gt
    have := Nat.lt_two_pow m
    have h1 : 1 ≤ 2 ^ 24 * 1 := by norm_num
    calc m < 2 ^ m := this
      _ = 1 * 2 ^ m := (one_mul _).symm
      _ ≤ 2 ^ 24 * 1 * 2 ^ m := Nat.mul_le_mul_right _ h1

/-- The rounded magnitude before the range check. -/
theorem roundMag_eq (n d : Nat) :
    roundMag n d =
      if roundHalfEven n (d * quantum (n / d)) * quantum (n / d) < 2 ^ 128 * unitsPerOne then
        some (roundHalfEven n (d * quantum (n / d)) * quantum (n / d))
      else none := rfl

theorem raw_err (n d : Nat) (hd : 0 < d) :
    2 ^ 24 * (roundHalfEven n (d * quantum (n / d)) * quantum (n / d) * d) ≤
        2 ^ 24 * n + (n + 2 ^ 23 * d) ∧
      2 ^ 24 * n ≤
        2 ^ 24 * (roundHalfEven n (d * quantum (n / d)) * quantum (n / d) * d) +
          (n + 2 ^ 23 * d) := by
  have hg : 0 < quantum (n / d) := quantumFrom_pos _ _ 1 one_pos
  obtain ⟨h1, h2⟩ := roundHalfEven_err n (d * quantum (n / d)) (Nat.mul_pos hd hg)
  have h3 : d * quantum (n / d) * 2 ^ 23 ≤ n + 2 ^ 23 * d := by
    have h := quantumFrom_le (n / d) (n / d) 1
    have hdiv : d * (n / d) ≤ n := Nat.mul_div_le n d
    rcases le_max_iff.1 h with h' | h'
    · calc d * quantum (n / d) * 2 ^ 23 = d * (quantum (n / d) * 2 ^ 23) := by ring
        _ ≤ d * (n / d) := Nat.mul_le_mul_left _ h'
        _ ≤ n + 2 ^ 23 * d := by omega
    · calc d * quantum (n / d) * 2 ^ 23 = d * (quantum (n / d) * 2 ^ 23) := by ring
        _ ≤ d * (1 * 2 ^ 23) := Nat.mul_le_mul_left _ h'
        _ = 2 ^ 23 * d := by ring
        _ ≤ n + 2 ^ 23 * d := by omega
  have e : roundHalfEven n (d * quantum (n / d)) * quantum (n / d) * d =
      roundHalfEven n (d * quantum (n / d)) * (d * quantum (n / d)) := by ring
  rw [e]
  generalize roundHalfEven n (d * quantum (n / d)) * (d * quantum (n / d)) = T at h1 h2 ⊢
  generalize d * quantum (n / d) = G at h1 h2 h3 ⊢
  constructor <;> omega

theorem roundMag_err (n d k : Nat) (hd : 0 < d) (h : roundMag n d = some k) :
    2 ^ 24 * (k * d) ≤ 2 ^ 24 * n + (n + 2 ^ 23 * d) ∧
      2 ^ 24 * n ≤ 2 ^ 24 * (k * d) + (n + 2 ^ 23 * d) := by
  rw [roundMag_eq] at h
  split_ifs at h
  cases h
  exact raw_err n d hd

theorem roundMag_isSome (n d : Nat) (hd : 0 < d)
    (h : (2 ^ 24 + 1) * n + 2 ^ 23 * d < 2 ^ 24 * (2 ^ 128 * unitsPerOne * d)) :
    ∃ k, roundMag n d = some k := by
  rw [roundMag_eq]
  have h1 := (raw_err n d hd).1
  have h2 : roundHalfEven n (d * quantum (n / d)) * quantum (n / d) * d <
      2 ^ 128 * unitsPerOne * d := by
    generalize roundHalfEven n (d * quantum (n / d)) * quantum (n / d) * d = T at h1 ⊢
    generalize 2 ^ 128 * unitsPerOne * d = B at h ⊢
    omega
  have h3 := Nat.lt_of_mul_lt_mul_right h2
  rw [if_pos h3]
  exact ⟨_, rfl⟩

theorem round_err (n : Int) (d : Nat) (r : Int) (hd : 0 < d) (h : roundToNearest n d = some r) :
    2 ^ 24 * |r * d - n| ≤ |n| + 2 ^ 23 * d := by
  rcases hk : roundMag n.natAbs d with _ | k
  · simp only [roundToNearest, hk] at h
    cases h
  · simp only [roundToNearest, hk, Option.some.injEq] at h
    obtain ⟨h1, h2⟩ := roundMag_err _ d k hd hk
    have ha : ((n.natAbs : Nat) : Int) = |n| := Int.natCast_natAbs n
    have h1' : (2 : Int) ^ 24 * ((k : Int) * d) ≤ 2 ^ 24 * |n| + (|n| + 2 ^ 23 * d) := by
      rw [← ha]; exact_mod_cast h1
    have h2' : (2 : Int) ^ 24 * |n| ≤ 2 ^ 24 * ((k : Int) * d) + (|n| + 2 ^ 23 * d) := by
      rw [← ha]; exact_mod_cast h2
    have habs : 2 ^ 24 * |r * d - n| = |2 ^ 24 * (r * d - n)| := by
      rw [abs_mul, abs_of_pos (by positivity : (0 : Int) < 2 ^ 24)]
    rw [habs, abs_le]
    split_ifs at h with hn
    · rw [abs_of_neg hn] at h1' h2' ⊢
      subst h
      constructor <;> nlinarith
    · rw [abs_of_nonneg (not_lt.1 hn)] at h1' h2' ⊢
      subst h
      constructor <;> nlinarith

theorem round_isSome (n : Int) (d : Nat) (hd : 0 < d)
    (h : (2 ^ 24 + 1) * |n| + 2 ^ 23 * d < 2 ^ 24 * (2 ^ 128 * unitsPerOne * d)) :
    ∃ r, roundToNearest n d = some r := by
  have h' : (2 ^ 24 + 1) * n.natAbs + 2 ^ 23 * d < 2 ^ 24 * (2 ^ 128 * unitsPerOne * d) := by
    have ha : ((n.natAbs : Nat) : Int) = |n| := Int.natCast_natAbs n
    rw [← ha] at h
    exact_mod_cast h
  obtain ⟨k, hk⟩ := roundMag_isSome _ d hd h'
  exact ⟨if n < 0 then -(k : Int) else (k : Int), by simp only [roundToNearest, hk]⟩

theorem ppm_eq : ppm = 100 * (unitsPerOne : Int) := rfl

theorem unitsPerOne_pos : 0 < unitsPerOne := by unfold unitsPerOne; positivity

theorem px2M_eq (v : Val) : px2M v = roundToNearest (v * unitsPerOne) (100 * unitsPerOne) := by
  have hU : (0 : Int) < unitsPerOne := by exact_mod_cast unitsPerOne_pos
  have hp : ppm ≠ 0 := by rw [ppm_eq]; positivity
  have hs : ppm.sign = 1 := Int.sign_eq_one_of_pos (by rw [ppm_eq]; positivity)
  have hn : ppm.natAbs = 100 * unitsPerOne := by
    rw [ppm_eq, Int.natAbs_mul]; simp
  simp only [px2M, div, if_neg hp, hs, hn, mul_one]

theorem m2Px_eq (v : Val) : m2Px v = roundToNearest (v * (100 * unitsPerOne)) unitsPerOne := rfl

/-- In binary32 the round trip stays within rounding tolerance of its argument. -/
theorem roundTrip_tolerance (v : Val) (hv : |v| ≤ 2 ^ 127 * unitsPerOne) :
    ∃ r, (px2M v).bind m2Px = some r ∧ 2 ^ 22 * |r - v| ≤ |v| + 51 * 2 ^ 22 := by
  have hUn := unitsPerOne_pos
  have hU : (0 : Int) < unitsPerOne := by exact_mod_cast hUn
  have hv0 : 0 ≤ |v| := abs_nonneg v
  -- first rounding
  have hd1 : 0 < 100 * unitsPerOne := by positivity
  obtain ⟨r1, hr1⟩ : ∃ r, roundToNearest (v * unitsPerOne) (100 * unitsPerOne) = some r := by
    apply round_isSome _ _ hd1
    rw [abs_mul, abs_of_pos hU]
    push_cast
    nlinarith
  have e1 := round_err _ _ _ hd1 hr1
  have e1' : 2 ^ 24 * |100 * r1 - v| ≤ |v| + 2 ^ 23 * 100 := by
    have : r1 * ((100 * unitsPerOne : Nat) : Int) - v * unitsPerOne =
        (100 * r1 - v) * unitsPerOne := by push_cast; ring
    rw [this, abs_mul, abs_mul, abs_of_pos hU] at e1
    push_cast at e1
    have : (2 ^ 24 * |100 * r1 - v|) * (unitsPerOne : Int) ≤
        (|v| + 2 ^ 23 * 100) * unitsPerOne := by linarith
    exact le_of_mul_le_mul_right this hU
  have hr1abs : 100 * |r1| ≤ |v| + |100 * r1 - v| := by
    have : |100 * r1| ≤ |v| + |100 * r1 - v| := by
      have := abs_add v (100 * r1 - v)
      simpa using this
    rwa [abs_mul, abs_of_pos (by norm_num : (0 : Int) < 100)] at this
  -- second rounding
  obtain ⟨r2, hr2⟩ : ∃ r, roundToNearest (r1 * (100 * unitsPerOne)) unitsPerOne = some r := by
    apply round_isSome _ _ hUn
    rw [abs_mul, abs_of_pos (by positivity : (0 : Int) < 100 * unitsPerOne)]
    have h127 : (0 : Int) < 2 ^ 127 := by positivity
    nlinarith [abs_nonneg r1, abs_nonneg (100 * r1 - v)]
  have e2 := round_err _ _ _ hUn hr2
  have e2' : 2 ^ 24 * |r2 - 100 * r1| ≤ 100 * |r1| + 2 ^ 23 := by
    have : r2 * (unitsPerOne : Int) - r1 * (100 * unitsPerOne) =
        (r2 - 100 * r1) * unitsPerOne := by ring
    rw [this, abs_mul, abs_mul, abs_of_pos hU,
      abs_of_pos (by positivity : (0 : Int) < 100 * unitsPerOne)] at e2
    have : (2 ^ 24 * |r2 - 100 * r1|) * (unitsPerOne : Int) ≤
        (100 * |r1| + 2 ^ 23) * unitsPerOne := by linarith
    exact le_of_mul_le_mul_right this hU
  refine ⟨r2, ?_, ?_⟩
  · rw [px2M_eq, hr1, Option.some_bind, m2Px_eq, hr2]
  · have htri : |r2 - v| ≤ |r2 - 100 * r1| + |100 * r1 - v| := by
      have := abs_add (r2 - 100 * r1) (100 * r1 - v)
      simpa using this
    clear e1 e2
    linarith

theorem roundTrip_tolerance_vec (v : Vec) (hx : |v.x| ≤ 2 ^ 127 * unitsPerOne)
    (hy : |v.y| ≤ 2 ^ 127 * unitsPerOne) :
    ∃ r, (px2MVec v).bind m2PxVec = some r ∧
      2 ^ 22 * |r.x - v.x| ≤ |v.x| + 51 * 2 ^ 22 ∧
      2 ^ 22 * |r.y - v.y| ≤ |v.y| + 51 * 2 ^ 22 := by
  obtain ⟨rx, hrx, bx⟩ := roundTrip_tolerance v.x hx
  obtain ⟨ry, hry, by'⟩ := roundTrip_tolerance v.y hy
  obtain ⟨mx, hmx, hmx'⟩ := Option.bind_eq_some.1 hrx
  obtain ⟨my, hmy, hmy'⟩ := Option.bind_eq_some.1 hry
  refine ⟨⟨rx, ry⟩, ?_, bx, by'⟩
  have h1 : px2MVec v = some ⟨mx, my⟩ := by
    simp only [px2M] at hmx hmy
    simp only [px2MVec, hmx, hmy]
  have h2 : m2PxVec ⟨mx, my⟩ = some ⟨rx, ry⟩ := by
    simp only [m2Px] at hmx' hmy'
    simp only [m2PxVec, hmx', hmy']
  rw [h1, Option.some_bind, h2]

theorem toRat_abs (v : Val) : |toRat v| = ((|v| : Int) : ℚ) / (unitsPerOne : ℚ) := by
  have hU : (0 : ℚ) < (unitsPerOne : ℚ) := by exact_mod_cast unitsPerOne_pos
  rw [toRat, abs_div, abs_of_pos hU, Int.cast_abs]

theorem toRat_sub (r v : Val) : toRat r - toRat v = toRat (r - v) := by
  simp only [toRat, Int.cast_sub]
  ring

theorem units_le_of_toRat (v : Val) (h : |toRat v| ≤ 2 ^ 127) : |v| ≤ 2 ^ 127 * unitsPerOne := by
  have hU : (0 : ℚ) < (unitsPerOne : ℚ) := by exact_mod_cast unitsPerOne_pos
  rw [toRat_abs, div_le_iff₀ hU] at h
  exact_mod_cast h

theorem toRat_tolerance (r v : Val) (h : 2 ^ 22 * |r - v| ≤ |v| + 51 * 2 ^ 22) :
    |toRat r - toRat v| ≤ |toRat v| / 2 ^ 22 + 51 / 2 ^ 149 := by
  have hU : (0 : ℚ) < (unitsPerOne : ℚ) := by exact_mod_cast unitsPerOne_pos
  have hq : (2 : ℚ) ^ 22 * ((|r - v| : Int) : ℚ) ≤ ((|v| : Int) : ℚ) + 51 * 2 ^ 22 := by
    exact_mod_cast h
  have hU' : (unitsPerOne : ℚ) = 2 ^ 149 := by
    simp only [unitsPerOne, Nat.cast_pow, Nat.cast_ofNat]
  rw [toRat_sub, toRat_abs, toRat_abs, ← hU']
  rw [div_div, div_add_div _ _ (by positivity) (by positivity),
    div_le_div_iff₀ hU (by positivity)]
  have hm := mul_le_mul_of_nonneg_right hq (mul_nonneg hU.le hU.le)
  have e1 : ((|r - v| : Int) : ℚ) * ((unitsPerOne : ℚ) * 2 ^ 22 * (unitsPerOne : ℚ)) =
      2 ^ 22 * ((|r - v| : Int) : ℚ) * ((unitsPerOne : ℚ) * (unitsPerOne : ℚ)) := by ring
  have e2 : (((|v| : Int) : ℚ) * (unitsPerOne : ℚ) + (unitsPerOne : ℚ) * 2 ^ 22 * 51) *
      (unitsPerOne : ℚ) =
      (((|v| : Int) : ℚ) + 51 * 2 ^ 22) * ((unitsPerOne : ℚ) * (unitsPerOne : ℚ)) := by ring
  rw [e1, e2]
  exact hm

theorem roundHalfEven_scale (n d c : Nat) (hc : 0 < c) :
    roundHalfEven (n * c) (d * c) = roundHalfEven n d := by
  unfold roundHalfEven
  have h1 : n * c % (d * c) = n % d * c := Nat.mul_mod_mul_right c n d
  have h2 : n * c / (d * c) = n / d := Nat.mul_div_mul_right n d hc
  rw [h1, h2]
  have e1 : (2 * (n % d * c) < d * c) ↔ (2 * (n % d) < d) := by
    rw [← mul_assoc]; exact Nat.mul_lt_mul_right hc
  have e2 : (d * c < 2 * (n % d * c)) ↔ (d < 2 * (n % d)) := by
    rw [← mul_assoc]; exact Nat.mul_lt_mul_right hc
  simp only [e1, e2]

theorem roundMag_scale (n d c : Nat) (hc : 0 < c) :
    roundMag (n * c) (d * c) = roundMag n d := by
  have h2 : n * c / (d * c) = n / d := Nat.mul_div_mul_right n d hc
  have h3 : d * c * quantum (n / d) = d * quantum (n / d) * c := by ring
  rw [roundMag_eq, roundMag_eq, h2, h3, roundHalfEven_scale _ _ _ hc]

theorem roundToNearest_scale (n : Int) (d c : Nat) (hc : 0 < c) :
    roundToNearest (n * c) (d * c) = roundToNearest n d := by
  have hc' : (0 : Int) < c := by exact_mod_cast hc
  have h1 : (n * (c : Int)).natAbs = n.natAbs * c := by
    rw [Int.natAbs_mul, Int.natAbs_ofNat]
  have h2 : (n * (c : Int) < 0) ↔ (n < 0) := by
    constructor
    · intro h
      by_contra hn
      exact absurd h (not_lt.2 (mul_nonneg (not_lt.1 hn) hc'.le))
    · intro h
      exact mul_neg_of_neg_of_pos h hc'
  simp only [roundToNearest, h1, roundMag_scale _ _ _ hc, h2]

theorem roundMag_exact (m e : Nat) (hm : m < 2 ^ 24)
    (hfin : m * 2 ^ e < 2 ^ 128 * unitsPerOne) : roundMag (m * 2 ^ e) 1 = some (m * 2 ^ e) := by
  obtain ⟨⟨e', he'⟩, hlow, hhigh⟩ := quantum_spec (m * 2 ^ e)
  have hgpos : 0 < quantum (m * 2 ^ e) := by rw [he']; positivity
  have hdvd : quantum (m * 2 ^ e) ∣ m * 2 ^ e := by
    rcases hlow with h1 | h23
    · rw [h1]; exact one_dvd _
    · rw [he'] at h23 ⊢
      have hlt : 2 ^ (e' + 23) < 2 ^ (e + 24) := by
        calc 2 ^ (e' + 23) = 2 ^ e' * 2 ^ 23 := pow_add 2 e' 23
          _ ≤ m * 2 ^ e := h23
          _ < 2 ^ 24 * 2 ^ e := Nat.mul_lt_mul_of_pos_right hm (by positivity)
          _ = 2 ^ (e + 24) := by rw [pow_add, mul_comm]
      have hle : e' ≤ e := by
        have := (Nat.pow_lt_pow_iff_right (by norm_num : 1 < 2)).1 hlt
        omega
      exact Dvd.dvd.mul_left (pow_dvd_pow 2 hle) m
  rw [roundMag_eq]
  simp only [Nat.div_one, one_mul]
  have hmod : m * 2 ^ e % quantum (m * 2 ^ e) = 0 := Nat.mod_eq_zero_of_dvd hdvd
  have hr : roundHalfEven (m * 2 ^ e) (quantum (m * 2 ^ e)) =
      m * 2 ^ e / quantum (m * 2 ^ e) := by
    unfold roundHalfEven
    rw [hmod, if_pos (by omega)]
  rw [hr, Nat.div_mul_cancel hdvd, if_pos hfin]

theorem roundToNearest_exact (k : Int) (m e : Nat) (hk : k.natAbs = m * 2 ^ e)
    (hm : m < 2 ^ 24) (hfin : m * 2 ^ e < 2 ^ 128 * unitsPerOne) :
    roundToNearest k 1 = some k := by
  have h := roundMag_exact m e hm hfin
  simp only [roundToNearest, hk, h]
  congr 1
  split_ifs with hneg
  · rw [← hk, Int.natCast_natAbs, abs_of_neg hneg, neg_neg]
  · rw [← hk, Int.natCast_natAbs, abs_of_nonneg (not_lt.1 hneg)]

theorem castInt_exact (i : Int) (hi : i.natAbs < 2 ^ 24) :
    castInt i = some (i * unitsPerOne) := by
  apply roundToNearest_exact _ i.natAbs 149
  · rw [Int.natAbs_mul, Int.natAbs_ofNat]; rfl
  · exact hi
  · have : i.natAbs * 2 ^ 149 < 2 ^ 24 * 2 ^ 149 :=
      Nat.mul_lt_mul_of_pos_right hi (by positivity)
    unfold unitsPerOne
    calc i.natAbs * 2 ^ 149 < 2 ^ 24 * 2 ^ 149 := this
      _ ≤ 2 ^ 128 * 2 ^ 149 := Nat.mul_le_mul_right _ (Nat.pow_le_pow_right (by norm_num) (by norm_num))

theorem unitsPerOne_eq : (unitsPerOne : Int) = 2 * 2 ^ 148 := by
  unfold unitsPerOne; norm_num

theorem scaled_finite (m : Nat) (hm : m < 2 ^ 24) : m * 2 ^ 148 < 2 ^ 128 * unitsPerOne := by
  unfold unitsPerOne
  calc m * 2 ^ 148 < 2 ^ 24 * 2 ^ 148 := Nat.mul_lt_mul_of_pos_right hm (by positivity)
    _ ≤ 2 ^ 128 * 2 ^ 149 :=
      Nat.mul_le_mul (Nat.pow_le_pow_right (by norm_num) (by norm_num))
        (Nat.pow_le_pow_right (by norm_num) (by norm_num))

theorem roundToNearest_half (t : Int) (ht : t.natAbs < 2 ^ 24) :
    roundToNearest (t * 2 ^ 148) 1 = some (t * 2 ^ 148) := by
  apply roundToNearest_exact _ t.natAbs 148 _ ht (scaled_finite _ ht)
  rw [Int.natAbs_mul, Int.natAbs_pow]
  rfl

theorem div_two_exact (i : Int) (hi : i.natAbs < 2 ^ 24) :
    div (i * unitsPerOne) (ofInt 2) = some (i * 2 ^ 148) := by
  have hU : (0 : Int) < unitsPerOne := by exact_mod_cast unitsPerOne_pos
  have h2 : ofInt 2 = ((2 * unitsPerOne : Nat) : Int) := by
    simp only [ofInt]; push_cast; rfl
  have h2pos : 0 < 2 * unitsPerOne := Nat.mul_pos (by norm_num) unitsPerOne_pos
  have hne : ofInt 2 ≠ 0 := by rw [h2]; exact_mod_cast h2pos.ne'
  have hs : (ofInt 2).sign = 1 :=
    Int.sign_eq_one_of_pos (by rw [h2]; exact_mod_cast h2pos)
  have hn : (ofInt 2).natAbs = 1 * (2 * unitsPerOne) := by
    rw [h2, Int.natAbs_ofNat, one_mul]
  have hnum : i * (unitsPerOne : Int) * unitsPerOne * 1 =
      i * 2 ^ 148 * ((2 * unitsPerOne : Nat) : Int) := by
    push_cast
    rw [unitsPerOne_eq]
    ring
  simp only [div, if_neg hne, hs, hn]
  rw [hnum, roundToNearest_scale _ _ _ h2pos]
  exact roundToNearest_half i hi

theorem add_exact (p size : Int) (h : (2 * p + size).natAbs < 2 ^ 24) :
    add (p * unitsPerOne) (size * 2 ^ 148) = some ((2 * p + size) * 2 ^ 148) := by
  have e : p * (unitsPerOne : Int) + size * 2 ^ 148 = (2 * p + size) * 2 ^ 148 := by
    rw [unitsPerOne_eq]; ring
  rw [add, e]
  exact roundToNearest_half _ h

theorem halfPx_eq (size : Int) (hs : size.natAbs < 2 ^ 24) :
    halfPx size = some (size * 2 ^ 148) := by
  rw [halfPx, castInt_exact size hs, Option.some_bind, div_two_exact size hs]

theorem centrePx_eq (p size : Int) (hp : p.natAbs < 2 ^ 24) (hs : size.natAbs < 2 ^ 24)
    (h : (2 * p + size).natAbs < 2 ^ 24) :
    centrePx p size = some ((2 * p + size) * 2 ^ 148) := by
  rw [centrePx, castInt_exact p hp, Option.some_bind, castInt_exact size hs, Option.some_bind,
    div_two_exact size hs, Option.some_bind, add_exact p size h]

theorem px2M_scaled (t : Int) :
    px2M (t * 2 ^ 148) = roundToNearest (t * unitsPerOne) 200 := by
  have e1 : t * 2 ^ 148 * (unitsPerOne : Int) = t * 2 ^ 148 * ((unitsPerOne : Nat) : Int) := rfl
  have e2 : t * (unitsPerOne : Int) = t * 2 ^ 148 * ((2 : Nat) : Int) := by
    rw [unitsPerOne_eq]; push_cast; ring
  have e3 : (200 : Nat) = 100 * 2 := rfl
  rw [px2M_eq, e1, roundToNearest_scale _ _ _ unitsPerOne_pos, e2, e3,
    roundToNearest_scale _ _ _ (by norm_num)]

theorem roundToNearest_cancel (n : Int) (d c : Nat) (hc : 0 < c) :
    roundToNearest ((c : Int) * n * unitsPerOne) (d * c) =
      roundToNearest (n * unitsPerOne) d := by
  have e : (c : Int) * n * unitsPerOne = n * unitsPerOne * (c : Int) := by ring
  rw [e, roundToNearest_scale _ _ _ hc]

theorem nearest_div (a : Int) (b : Nat) (hb : 0 < b) :
    nearest ((a : ℚ) / (b : ℚ)) = roundToNearest (a * unitsPerOne) b := by
  have hb' : ((b : Int)) ≠ 0 := by exact_mod_cast hb.ne'
  obtain ⟨c, hc1, hc2⟩ := Rat.exists_eq_mul_div_num_and_eq_mul_div_den a hb'
  have hq : ((a : ℚ) / ((b : Int) : ℚ)) = (a : ℚ) / (b : ℚ) := by push_cast; rfl
  rw [hq] at hc1 hc2
  have hden : (0 : Int) < (((a : ℚ) / (b : ℚ)).den : Int) := by
    exact_mod_cast Rat.den_pos _
  have hcpos : 0 < c := by
    have hbpos : (0 : Int) < b := by exact_mod_cast hb
    by_contra hneg
    have hle : c ≤ 0 := not_lt.1 hneg
    have : c * (((a : ℚ) / (b : ℚ)).den : Int) ≤ 0 :=
      mul_nonpos_of_nonpos_of_nonneg hle hden.le
    omega
  obtain ⟨c', rfl⟩ := Int.eq_ofNat_of_zero_le hcpos.le
  have hc'pos : 0 < c' := by exact_mod_cast hcpos
  have hb2 : b = ((a : ℚ) / (b : ℚ)).den * c' := by
    have : (b : Int) = ((((a : ℚ) / (b : ℚ)).den * c' : Nat) : Int) := by
      push_cast; rw [mul_comm]; exact hc2
    exact_mod_cast this
  have key := roundToNearest_cancel ((a : ℚ) / (b : ℚ)).num ((a : ℚ) / (b : ℚ)).den c' hc'pos
  rw [← hc1, ← hb2] at key
  exact key.symm

theorem natAbs_lt_of_abs (x : Int) (h : |x| < 2 ^ 24) : x.natAbs < 2 ^ 24 := by
  have : ((x.natAbs : Nat) : Int) < 2 ^ 24 := by rw [Int.natCast_natAbs]; exact h
  exact_mod_cast this

theorem px2MVec_scaled (tx ty : Int) :
    px2MVec ⟨tx * 2 ^ 148, ty * 2 ^ 148⟩ = nearestVec ((tx : ℚ) / 200) ((ty : ℚ) / 200) := by
  have hx := px2M_scaled tx
  have hy := px2M_scaled ty
  have nx := nearest_div tx 200 (by norm_num)
  have ny := nearest_div ty 200 (by norm_num)
  simp only [px2M] at hx hy
  simp only [Nat.cast_ofNat] at nx ny
  simp only [px2MVec, nearestVec, hx, hy, nx, ny]

theorem centre_formula (p size : Int) :
    ((p : ℚ) + (size : ℚ) / 2) / 100 = (((2 * p + size : Int)) : ℚ) / 200 := by
  push_cast; ring

theorem half_formula (size : Int) : ((size : ℚ) / 2) / 100 = ((size : Int) : ℚ) / 200 := by
  ring

theorem position_eq (X Y width height : Int) (hX : |X| < 2 ^ 24) (hw : |width| < 2 ^ 24)
    (hXw : |2 * X + width| < 2 ^ 24) (hY : |Y| < 2 ^ 24) (hh : |height| < 2 ^ 24)
    (hYh : |2 * Y + height| < 2 ^ 24) :
    px2MVecOf (centrePx X width) (centrePx Y height) =
      nearestVec (((X : ℚ) + (width : ℚ) / 2) / 100) (((Y : ℚ) + (height : ℚ) / 2) / 100) := by
  rw [centrePx_eq X width (natAbs_lt_of_abs _ hX) (natAbs_lt_of_abs _ hw)
      (natAbs_lt_of_abs _ hXw),
    centrePx_eq Y height (natAbs_lt_of_abs _ hY) (natAbs_lt_of_abs _ hh)
      (natAbs_lt_of_abs _ hYh)]
  simp only [px2MVecOf, Option.some_bind]
  rw [px2MVec_scaled, centre_formula, centre_formula]

theorem boundingBoxSize_eq (width height : Int) (hw : |width| < 2 ^ 24)
    (hh : |height| < 2 ^ 24) :
    px2MVecOf (halfPx width) (halfPx height) =
      nearestVec (((width : ℚ) / 2) / 100) (((height : ℚ) / 2) / 100) := by
  rw [halfPx_eq width (natAbs_lt_of_abs _ hw), halfPx_eq height (natAbs_lt_of_abs _ hh)]
  simp only [px2MVecOf, Option.some_bind]
  rw [px2MVec_scaled, half_formula, half_formula]

theorem halfPx_toRat (size : Int) (hs : |size| < 2 ^ 24) :
    (halfPx size).map toRat = some ((size : ℚ) / 2) := by
  rw [halfPx_eq size (natAbs_lt_of_abs _ hs), Option.map_some']
  congr 1
  simp only [toRat, unitsPerOne]
  push_cast
  field_simp
  ring

theorem nearest_err (q : ℚ) (r : Val) (h : nearest q = some r) :
    |toRat r - q| ≤ |q| / 2 ^ 24 + 1 / 2 ^ 150 := by
  have hD : (0 : ℚ) < (q.den : ℚ) := by exact_mod_cast q.den_pos
  have hU : (0 : ℚ) < (unitsPerOne : ℚ) := by exact_mod_cast unitsPerOne_pos
  have hU' : (unitsPerOne : ℚ) = 2 ^ 149 := by
    simp only [unitsPerOne, Nat.cast_pow, Nat.cast_ofNat]
  have e := round_err _ _ _ q.den_pos h
  have hq : (2 : ℚ) ^ 24 * |(r : ℚ) * q.den - q.num * unitsPerOne| ≤
      |(q.num : ℚ)| * unitsPerOne + 2 ^ 23 * q.den := by
    have e' : ((2 ^ 24 * |r * (q.den : Int) - q.num * unitsPerOne| : Int) : ℚ) ≤
        ((|q.num * (unitsPerOne : Int)| + 2 ^ 23 * (q.den : Int) : Int) : ℚ) := by
      exact_mod_cast e
    have habs : |q.num * (unitsPerOne : Int)| = |q.num| * unitsPerOne := by
      rw [abs_mul, abs_of_pos (by exact_mod_cast unitsPerOne_pos : (0 : Int) < unitsPerOne)]
    rw [habs] at e'
    push_cast at e'
    exact e'
  have hqd : q = (q.num : ℚ) / (q.den : ℚ) := (Rat.num_div_den q).symm
  have h1 : toRat r - q =
      ((r : ℚ) * q.den - q.num * unitsPerOne) / ((unitsPerOne : ℚ) * q.den) := by
    conv_lhs => rw [hqd]
    rw [toRat, div_sub_div _ _ hU.ne' hD.ne', mul_comm (unitsPerOne : ℚ) (q.num : ℚ)]
  have h2 : |q| = |(q.num : ℚ)| / (q.den : ℚ) := by
    conv_lhs => rw [hqd]
    rw [abs_div, abs_of_pos hD]
  rw [h1, h2, abs_div, abs_of_pos (mul_pos hU hD), div_le_iff₀ (mul_pos hU hD)]
  have h3 : (|(q.num : ℚ)| / (q.den : ℚ) / 2 ^ 24 + 1 / 2 ^ 150) * ((unitsPerOne : ℚ) * q.den) =
      (|(q.num : ℚ)| * unitsPerOne + 2 ^ 23 * q.den) / 2 ^ 24 := by
    rw [hU']
    field_simp
    ring
  rw [h3, le_div_iff₀ (by positivity)]
  linarith

theorem nearest_isSome (q : ℚ) (hq : |q| ≤ 2 ^ 127) : ∃ r, nearest q = some r := by
  have hDn : 0 < q.den := q.den_pos
  have hD : (0 : ℚ) < (q.den : ℚ) := by exact_mod_cast hDn
  have hUpos : (0 : Int) < unitsPerOne := by exact_mod_cast unitsPerOne_pos
  have hU1 : (1 : Int) ≤ unitsPerOne := hUpos
  have hnum : |q.num| ≤ 2 ^ 127 * (q.den : Int) := by
    have h2 : |q| = |(q.num : ℚ)| / (q.den : ℚ) := by
      conv_lhs => rw [← Rat.num_div_den q]
      rw [abs_div, abs_of_pos hD]
    rw [h2, div_le_iff₀ hD] at hq
    exact_mod_cast hq
  apply round_isSome _ _ hDn
  rw [abs_mul, abs_of_pos hUpos]
  have hDi : (0 : Int) < (q.den : Int) := by exact_mod_cast hDn
  have hUD : (q.den : Int) ≤ unitsPerOne * q.den := by nlinarith
  have h1 : |q.num| * (unitsPerOne : Int) ≤ 2 ^ 127 * ((unitsPerOne : Int) * q.den) := by
    have := mul_le_mul_of_nonneg_right hnum hUpos.le
    linarith
  have hpos : (0 : Int) < unitsPerOne * q.den := mul_pos hUpos hDi
  push_cast
  nlinarith

set_option maxRecDepth 100000 in
/-- The geometry of the first platform and of a rectangle beyond the exact integers, run
through the binary32 model. -/
theorem geometry_examples :
    Platform.m_position 30 420 250 30 = some ⟨6501171 * 2 ^ 127, 9122611 * 2 ^ 128⟩ ∧
      Platform.m_boundingBoxSize 250 30 = some ⟨5 * 2 ^ 147, 5033165 * 2 ^ 124⟩ ∧
      castInt (2 ^ 24 + 1) = some (ofInt (2 ^ 24)) ∧
      Platform.m_position (2 ^ 24 + 1) 0 0 0 = some ⟨5368709 * 2 ^ 144, 0⟩ := by
  decide

theorem toRat_examples :
    toRat (6501171 * 2 ^ 127) = 6501171 / 4194304 ∧
      toRat (9122611 * 2 ^ 128) = 9122611 / 2097152 ∧
      toRat (5 * 2 ^ 147) = 125 / 100 ∧
      toRat (5033165 * 2 ^ 124) = 5033165 / 33554432 := by
  refine ⟨?_, ?_, ?_, ?_⟩ <;> norm_num [toRat, unitsPerOne]

set_option maxRecDepth 100000 in
/-- The rounding model on known binary32 facts: `0.1f` is `13421773 * 2 ^ (-27)`; the
integer `2 ^ 24 + 1` is not a `float` and rounds to the even neighbour `2 ^ 24`, and
`2 ^ 24 + 3` to `2 ^ 24 + 4`; half a unit rounds to zero and one and a half units to two;
the largest finite value is a `float`, doubling it overflows, and so does dividing by
zero. -/
theorem rounding_examples :
    div (ofInt 1) (ofInt 10) = some (13421773 * 2 ^ 122) ∧
      ¬ representable (ofInt (2 ^ 24 + 1)) ∧
      roundToNearest (ofInt (2 ^ 24 + 1)) 1 = some (ofInt (2 ^ 24)) ∧
      roundToNearest (ofInt (2 ^ 24 + 3)) 1 = some (ofInt (2 ^ 24 + 4)) ∧
      roundToNearest 1 2 = some 0 ∧ roundToNearest (-3) 2 = some (-2) ∧
      representable ((2 ^ 24 - 1) * 2 ^ 253) ∧
      mul ((2 ^ 24 - 1) * 2 ^ 253) (ofInt 2) = none ∧
      div (ofInt 1) 0 = none := by
  decide

end F32

/-! ## Unit conversion -/

set_option maxRecDepth 100000

/-- Claim C3 fails on the `float` arithmetic of the code: `15.0f` is a binary32 value,
`px2M` takes it to the binary32 value nearest to `0.15` and `m2Px` takes that to
`15 + 2 ^ (-20)`, not back to `15`; the vector converters do the same per component.  So
the round trip is not the identity on binary32 values. -/
theorem round_trip_inexact_in_binary32 :
    F32.representable (F32.ofInt 15) ∧ F32.toRat (F32.ofInt 15) = 15 ∧
      (F32.px2M (F32.ofInt 15)).bind F32.m2Px = some (F32.ofInt 15 + 2 ^ 129) ∧
      F32.toRat (F32.ofInt 15 + 2 ^ 129) = 15 + 1 / 2 ^ 20 ∧
      (F32.px2M (F32.ofInt 15)).bind F32.m2Px ≠ some (F32.ofInt 15) ∧
      (F32.px2MVec ⟨F32.ofInt 15, F32.ofInt 15⟩).bind F32.m2PxVec ≠
        some ⟨F32.ofInt 15, F32.ofInt 15⟩ ∧
      ¬ (∀ v : F32.Val, F32.representable v → (F32.px2M v).bind F32.m2Px = some v) := by
  have h1 : F32.representable (F32.ofInt 15) := by decide
  have h2 : (F32.px2M (F32.ofInt 15)).bind F32.m2Px ≠ some (F32.ofInt 15) := by decide
  refine ⟨h1, ?_, by decide, ?_, h2, by decide, fun h => h2 (h _ h1)⟩
  · norm_num [F32.toRat, F32.ofInt, F32.unitsPerOne]
  · norm_num [F32.toRat, F32.ofInt, F32.unitsPerOne]

/-- Claim C3, amended.  With `ppm = 100`, in arithmetic without rounding the round trip
is the identity: `m2Px (px2M v) = v` for every `v`, and `m2PxVec (px2MVec v) = v` for
every vector.  In binary32 the round trip of a finite `v` with `|v| ≤ 2 ^ 127` is finite
and within rounding tolerance of `v`: the result `r` has
`|r - v| ≤ |v| / 2 ^ 22 + 51 / 2 ^ 149`, and the same holds for each component of a
vector. -/
theorem unit_conversion_round_trip :
    (ppm = 100 ∧ F32.toRat F32.ppm = 100) ∧
    (∀ v : ℚ, m2Px (px2M v) = v) ∧
    (∀ v : Vector2, m2PxVec (px2MVec v) = v) ∧
    (∀ v : F32.Val, |F32.toRat v| ≤ 2 ^ 127 →
      ∃ r, (F32.px2M v).bind F32.m2Px = some r ∧
        |F32.toRat r - F32.toRat v| ≤ |F32.toRat v| / 2 ^ 22 + 51 / 2 ^ 149) ∧
    (∀ v : F32.Vec, |F32.toRat v.x| ≤ 2 ^ 127 → |F32.toRat v.y| ≤ 2 ^ 127 →
      ∃ r, (F32.px2MVec v).bind F32.m2PxVec = some r ∧
        |F32.toRat r.x - F32.toRat v.x| ≤ |F32.toRat v.x| / 2 ^ 22 + 51 / 2 ^ 149 ∧
        |F32.toRat r.y - F32.toRat v.y| ≤ |F32.toRat v.y| / 2 ^ 22 + 51 / 2 ^ 149) := by
  refine ⟨⟨rfl, ?_⟩, ?_, ?_, ?_, ?_⟩
  · norm_num [F32.toRat, F32.ppm, F32.ofInt, F32.unitsPerOne]
  · intro v
    simp only [m2Px, px2M, ppm]
    norm_num
  · intro v
    cases v
    simp only [m2PxVec, px2MVec, ppm]
    norm_num
  · intro v hv
    obtain ⟨r, hr, hb⟩ := F32.roundTrip_tolerance v (F32.units_le_of_toRat v hv)
    exact ⟨r, hr, F32.toRat_tolerance r v hb⟩
  · intro v hx hy
    obtain ⟨r, hr, hbx, hby⟩ :=
      F32.roundTrip_tolerance_vec v (F32.units_le_of_toRat _ hx) (F32.units_le_of_toRat _ hy)
    exact ⟨r, hr, F32.toRat_tolerance _ _ hbx, F32.toRat_tolerance _ _ hby⟩

/-- Claim C3, amended, at `30.0f`: the binary32 round trip is finite and within tolerance
there. -/
theorem unit_conversion_round_trip_witness :
    |F32.toRat (F32.ofInt 30)| ≤ 2 ^ 127 ∧
      ∃ r, (F32.px2M (F32.ofInt 30)).bind F32.m2Px = some r ∧
        |F32.toRat r - F32.toRat (F32.ofInt 30)| ≤
          |F32.toRat (F32.ofInt 30)| / 2 ^ 22 + 51 / 2 ^ 149 :=
  ⟨by norm_num [F32.toRat, F32.ofInt, F32.unitsPerOne],
    unit_conversion_round_trip.2.2.2.1 (F32.ofInt 30)
      (by norm_num [F32.toRat, F32.ofInt, F32.unitsPerOne])⟩

/-! ## The spawn throttle -/

section Throttle

variable {W : Type} (E : Engine W)

/-- Claim C1.  Starting from `boxClock = 0` and an empty box registry, `N ≥ 3` consecutive
loop iterations with the left button held in every one of them leave exactly `N / 4` boxes
in the registry (floor division).  The same count holds after every initial segment of the
run, with the counter at `k % 4` after `k` frames: three incrementing frames, then one
frame that spawns and resets the counter. -/
theorem throttle_continuous_hold (s : State W) (frames : List FrameInput)
    (hclock : s.boxClock = 0) (hempty : s.m_boxes = [])
    (hheld : ∀ f ∈ frames, f.mouseDown = true) (_hN : 3 ≤ frames.length) :
    (run E s frames).m_boxes.length = frames.length / 4 ∧
      ∀ k, k ≤ frames.length →
        (run E s (frames.take k)).m_boxes.length = k / 4 ∧
          (run E s (frames.take k)).boxClock = ((k % 4 : Nat) : Int) := by
  have key : ∀ k, k ≤ frames.length →
      (run E s (frames.take k)).m_boxes.length = k / 4 ∧
        (run E s (frames.take k)).boxClock = ((k % 4 : Nat) : Int) := by
    intro k hk
    have hh : ∀ f ∈ frames.take k, f.mouseDown = true :=
      fun f hf => hheld f (List.mem_of_mem_take hf)
    obtain ⟨a, b, c⟩ := run_ticks E (frames.take k) s (by omega) (by omega)
    rw [heldCount_all _ hh, List.length_take, hempty, hclock] at c
    simp only [List.length_nil] at c
    rw [Nat.min_eq_left hk] at c
    constructor <;> omega
  refine ⟨?_, key⟩
  have := (key frames.length le_rfl).1
  rwa [List.take_length] at this

/-- Claim C2.  An iteration in which the button is not held leaves `boxClock` and the
number of boxes unchanged; hence for every finite sequence of held and not-held frames
starting from `boxClock = 0` and an empty registry, with `H` the number of held frames,
the run leaves exactly `H / 4` boxes and `boxClock = H % 4`. -/
theorem throttle_not_reset_on_release :
    (∀ (s : State W) (inp : FrameInput), inp.mouseDown = false →
      (loopBody E s inp).1.boxClock = s.boxClock ∧
        (loopBody E s inp).1.m_boxes.length = s.m_boxes.length) ∧
    (∀ (s : State W) (frames : List FrameInput), s.boxClock = 0 → s.m_boxes = [] →
      (run E s frames).m_boxes.length = heldCount frames / 4 ∧
        (run E s frames).boxClock = ((heldCount frames % 4 : Nat) : Int)) := by
  constructor
  · intro s inp h
    rw [loopBody_boxClock, loopBody_length, spawnPhase_idle E s inp h]
    exact ⟨rfl, rfl⟩
  · intro s frames hclock hempty
    obtain ⟨a, b, c⟩ := run_ticks E frames s (by omega) (by omega)
    rw [hempty, hclock] at c
    simp only [List.length_nil] at c
    constructor <;> omega

end Throttle

/-- Claim C1 on the reference engine: eleven held frames after start-up. -/
theorem throttle_continuous_hold_witness :
    (startup refEngine).boxClock = 0 ∧ (startup refEngine).m_boxes = [] ∧
      (∀ f ∈ List.replicate 11 heldFrame, f.mouseDown = true) ∧
      3 ≤ (List.replicate 11 heldFrame).length ∧
      ((run refEngine (startup refEngine) (List.replicate 11 heldFrame)).m_boxes.length =
          (List.replicate 11 heldFrame).length / 4 ∧
        ∀ k, k ≤ (List.replicate 11 heldFrame).length →
          (run refEngine (startup refEngine)
              ((List.replicate 11 heldFrame).take k)).m_boxes.length = k / 4 ∧
            (run refEngine (startup refEngine)
              ((List.replicate 11 heldFrame).take k)).boxClock = ((k % 4 : Nat) : Int)) :=
  ⟨rfl, rfl, by decide, by decide,
    throttle_continuous_hold refEngine (startup refEngine) (List.replicate 11 heldFrame)
      rfl rfl (by decide) (by decide)⟩

/-- Claim C2 on the reference engine: hold, release, hold again. -/
theorem throttle_not_reset_on_release_witness :
    idleFrame.mouseDown = false ∧
      (startup refEngine).boxClock = 0 ∧ (startup refEngine).m_boxes = [] ∧
      ((loopBody refEngine (startup refEngine) idleFrame).1.boxClock =
          (startup refEngine).boxClock ∧
        (loopBody refEngine (startup refEngine) idleFrame).1.m_boxes.length =
          (startup refEngine).m_boxes.length) ∧
      ((run refEngine (startup refEngine)
            [heldFrame, heldFrame, idleFrame, idleFrame, heldFrame, heldFrame,
              heldFrame]).m_boxes.length =
          heldCount [heldFrame, heldFrame, idleFrame, idleFrame, heldFrame, heldFrame,
            heldFrame] / 4 ∧
        (run refEngine (startup refEngine)
            [heldFrame, heldFrame, idleFrame, idleFrame, heldFrame, heldFrame,
              heldFrame]).boxClock =
          ((heldCount [heldFrame, heldFrame, idleFrame, idleFrame, heldFrame, heldFrame,
            heldFrame] % 4 : Nat) : Int)) :=
  ⟨rfl, rfl, rfl,
    (throttle_not_reset_on_release refEngine).1 (startup refEngine) idleFrame rfl,
    (throttle_not_reset_on_release refEngine).2 (startup refEngine) _ rfl rfl⟩

section RegistryClaims

variable {W : Type} (E : Engine W)

/-- Claim C4.  Assuming every `getRand (4, 20)` call returns an integer within `4..20`,
every box in the registry after any sequence of loop iterations from start-up has width
and height within `4..20` (and from any state whose boxes are within bounds).  Neither
field of a registered box changes later: over any run the sizes of the boxes already
registered stay where they are in the sequence, `generateBoxAtMouse` only appends, and
`updateBoxes` keeps every size. -/
theorem box_size_bounds :
    (∀ frames : List FrameInput, (∀ f ∈ frames, f.randInRange) →
      ∀ b ∈ (run E (startup E) frames).m_boxes, b.sizeInBounds) ∧
    (∀ (s : State W) (frames : List FrameInput), (∀ f ∈ frames, f.randInRange) →
      (∀ b ∈ s.m_boxes, b.sizeInBounds) → ∀ b ∈ (run E s frames).m_boxes, b.sizeInBounds) ∧
    (∀ (s : State W) (frames : List FrameInput),
      s.m_boxes.map Box.size <+: (run E s frames).m_boxes.map Box.size) ∧
    (∀ (mouseX mouseY rdWidth rdHeight : Int) (world : W) (bs : List Box),
      bs <+: (Box.generateBoxAtMouse E mouseX mouseY rdWidth rdHeight world bs).2) ∧
    (∀ (world : W) (bs : List Box),
      (Box.updateBoxes E world bs).map Box.size = bs.map Box.size) := by
  refine ⟨?_, ?_, ?_, ?_, ?_⟩
  · intro frames hf
    exact run_sizeInBounds E frames (startup E) hf (by intro b hb; cases hb)
  · intro s frames hf hs
    exact run_sizeInBounds E frames s hf hs
  · intro s frames
    exact run_size_prefix E frames s
  · intro mouseX mouseY rdWidth rdHeight world bs
    exact List.prefix_append _ _
  · intro world bs
    exact updateBoxes_size E world bs

/-- Claim C5.  In every loop iteration the world the drawing block sees is the world
right after that iteration's `b2World_Step`, the boxes drawn are the boxes of the registry
at that moment, which are those present after the update block (a box spawned in this
iteration included, in the same order), and every one of them has cached `m_position`
and `m_rotation` equal to what the engine reports for its body in that world; so each
rotated draw call is computed from the engine's pose after the step. -/
theorem pose_fresh_at_draw (s : State W) (inp : FrameInput) :
    (loopBody E s inp).1.world =
        E.b2World_Step (spawnPhase E s inp).world timeStep subStep ∧
      (loopBody E s inp).2 =
        DrawCmd.ClearBackground Color.BLACK ::
          (Box.drawBoxes E (loopBody E s inp).1.m_boxes ++
            Platform.drawPlatforms (loopBody E s inp).1.platforms) ∧
      (loopBody E s inp).1.m_boxes.map Box.erasePose =
        (spawnPhase E s inp).m_boxes.map Box.erasePose ∧
      (∀ b ∈ (loopBody E s inp).1.m_boxes,
        b.m_position =
            E.b2Body_GetPosition
              (E.b2World_Step (spawnPhase E s inp).world timeStep subStep) b.m_body ∧
          b.m_rotation =
            E.b2Body_GetRotation
              (E.b2World_Step (spawnPhase E s inp).world timeStep subStep) b.m_body) ∧
      Box.drawBoxes E (loopBody E s inp).1.m_boxes =
        (spawnPhase E s inp).m_boxes.map fun b =>
          Box.drawBox E
            { b with
              m_position :=
                E.b2Body_GetPosition
                  (E.b2World_Step (spawnPhase E s inp).world timeStep subStep) b.m_body
              m_rotation :=
                E.b2Body_GetRotation
                  (E.b2World_Step (spawnPhase E s inp).world timeStep subStep) b.m_body } := by
  refine ⟨rfl, rfl, ?_, ?_, ?_⟩
  · rw [loopBody_boxes, updateBoxes_erasePose]
  · intro b hb
    rw [loopBody_boxes] at hb
    obtain ⟨b', _, rfl⟩ := List.mem_map.1 hb
    exact ⟨rfl, rfl⟩
  · rw [loopBody_boxes]
    simp only [Box.drawBoxes, Box.updateBoxes, List.map_map]
    rfl

/-- Claim C7.  After start-up the platform registry holds exactly the two platforms with
pixel rectangles `(30, 420, 250, 30)` and `(280, 310, 320, 30)`; no loop iteration changes
the registry, from any state and with any input; and in every frame of every run from
start-up the draw calls end with the same two white rectangles. -/
theorem platforms_immovable :
    (startup E).platforms.map Platform.rect = [(30, 420, 250, 30), (280, 310, 320, 30)] ∧
    (∀ (s : State W) (inp : FrameInput), (loopBody E s inp).1.platforms = s.platforms) ∧
    (∀ frames : List FrameInput,
      (run E (startup E) frames).platforms = (startup E).platforms) ∧
    (∀ (frames : List FrameInput) (inp : FrameInput),
      (loopBody E (run E (startup E) frames) inp).2 =
        DrawCmd.ClearBackground Color.BLACK ::
          (Box.drawBoxes E (loopBody E (run E (startup E) frames) inp).1.m_boxes ++
            [DrawCmd.DrawRectangle 30 420 250 30 Color.WHITE,
              DrawCmd.DrawRectangle 280 310 320 30 Color.WHITE])) := by
  refine ⟨rfl, loopBody_platforms E, fun frames => run_platforms E frames _, ?_⟩
  intro frames inp
  have h : (loopBody E (run E (startup E) frames) inp).1.platforms = (startup E).platforms := by
    rw [loopBody_platforms, run_platforms]
  show DrawCmd.ClearBackground Color.BLACK ::
      (Box.drawBoxes E (loopBody E (run E (startup E) frames) inp).1.m_boxes ++
        Platform.drawPlatforms (loopBody E (run E (startup E) frames) inp).1.platforms) = _
  rw [h]
  rfl

/-- Claim C9.  Across every loop iteration the registry after the iteration is the
registry before it, followed by at most one new box, with the cached poses refreshed: no
box is removed or reordered (cached poses apart, the old sequence is an initial segment
of the new one).  The length grows by exactly 1 when the button is held and `boxClock = 3`
at the start of the iteration, and the box at the end then has the sampled pointer
position as its spawn point; otherwise the length does not change. -/
theorem box_registry_append_only (s : State W) (inp : FrameInput) :
    (s.m_boxes.map Box.erasePose <+: (loopBody E s inp).1.m_boxes.map Box.erasePose) ∧
    (∃ new : List Box, (loopBody E s inp).1.m_boxes =
      Box.updateBoxes E (loopBody E s inp).1.world (s.m_boxes ++ new)) ∧
    (inp.mouseDown = true ∧ s.boxClock = 3 →
      (loopBody E s inp).1.m_boxes.length = s.m_boxes.length + 1 ∧
        (loopBody E s inp).1.m_boxes.getLast?.map (fun b => (b.m_X, b.m_Y)) =
          some (inp.mouseX, inp.mouseY)) ∧
    (¬ (inp.mouseDown = true ∧ s.boxClock = 3) →
      (loopBody E s inp).1.m_boxes.length = s.m_boxes.length) := by
  refine ⟨?_, ?_, ?_, ?_⟩
  · rw [loopBody_boxes, updateBoxes_erasePose, spawnPhase_boxes, List.map_append]
    exact List.prefix_append _ _
  · exact ⟨_, by rw [loopBody_boxes, spawnPhase_boxes]; rfl⟩
  · intro h
    rw [loopBody_boxes, spawnPhase_boxes, if_pos h]
    simp [Box.updateBoxes, Box.refresh, Box.ctor]
  · intro h
    rw [loopBody_boxes, spawnPhase_boxes, if_neg h]
    simp [Box.updateBoxes]

end RegistryClaims

/-! ## The registry claims on the reference engine -/

theorem demoBox_mem : demoBox ∈ (run refEngine (startup refEngine) fourHeld).m_boxes := by
  decide!

/-- Claim C4 on the reference run. -/
theorem box_size_bounds_witness :
    (∀ f ∈ fourHeld, f.randInRange) ∧
      demoBox ∈ (run refEngine (startup refEngine) fourHeld).m_boxes ∧
      demoBox.sizeInBounds :=
  ⟨by decide, demoBox_mem,
    (box_size_bounds refEngine).1 fourHeld (by decide) demoBox demoBox_mem⟩

/-- Claim C5 on the reference run: the box spawned in the fourth frame is drawn with the
pose of the world stepped in that frame. -/
theorem pose_fresh_at_draw_witness :
    demoBox ∈
        (loopBody refEngine (run refEngine (startup refEngine) (List.replicate 3 heldFrame))
          heldFrame).1.m_boxes ∧
      (demoBox.m_position =
          refEngine.b2Body_GetPosition
            (refEngine.b2World_Step
              (spawnPhase refEngine
                (run refEngine (startup refEngine) (List.replicate 3 heldFrame))
                heldFrame).world timeStep subStep) demoBox.m_body ∧
        demoBox.m_rotation =
          refEngine.b2Body_GetRotation
            (refEngine.b2World_Step
              (spawnPhase refEngine
                (run refEngine (startup refEngine) (List.replicate 3 heldFrame))
                heldFrame).world timeStep subStep) demoBox.m_body) :=
  ⟨demoBox_mem,
    (pose_fresh_at_draw refEngine
      (run refEngine (startup refEngine) (List.replicate 3 heldFrame)) heldFrame).2.2.2.1
      demoBox demoBox_mem⟩

/-- Claim C9 on the reference run: the fourth held frame appends one box at the pointer,
and the fifth appends none. -/
theorem box_registry_append_only_witness :
    (heldFrame.mouseDown = true ∧
        (run refEngine (startup refEngine) (List.replicate 3 heldFrame)).boxClock = 3) ∧
      ((loopBody refEngine (run refEngine (startup refEngine) (List.replicate 3 heldFrame))
            heldFrame).1.m_boxes.length =
          (run refEngine (startup refEngine) (List.replicate 3 heldFrame)).m_boxes.length + 1 ∧
        (loopBody refEngine (run refEngine (startup refEngine) (List.replicate 3 heldFrame))
            heldFrame).1.m_boxes.getLast?.map (fun b => (b.m_X, b.m_Y)) =
          some (heldFrame.mouseX, heldFrame.mouseY)) ∧
      ¬ (heldFrame.mouseDown = true ∧
        (run refEngine (startup refEngine) fourHeld).boxClock = 3) ∧
      (loopBody refEngine (run refEngine (startup refEngine) fourHeld) heldFrame).1.m_boxes.length =
        (run refEngine (startup refEngine) fourHeld).m_boxes.length :=
  ⟨by decide,
    (box_registry_append_only refEngine
      (run refEngine (startup refEngine) (List.replicate 3 heldFrame)) heldFrame).2.2.1
      (by decide),
    by decide,
    (box_registry_append_only refEngine
      (run refEngine (startup refEngine) fourHeld) heldFrame).2.2.2 (by decide)⟩

/-! ## Construction and drawing geometry -/

section Geometry

variable {W : Type} (E : Engine W)

/-- The geometry of the two constructors in arithmetic without rounding. -/
theorem exact_construction_geometry :
    (∀ (X Y width height : Int) (world : W) (ps : List Platform),
      (Platform.ctor E X Y width height world ps).1.m_position =
          ⟨((X : ℚ) + (width : ℚ) / 2) / 100, ((Y : ℚ) + (height : ℚ) / 2) / 100⟩ ∧
        (Platform.ctor E X Y width height world ps).1.m_boundingBoxSize =
          ⟨((width : ℚ) / 2) / 100, ((height : ℚ) / 2) / 100⟩ ∧
        (Platform.ctor E X Y width height world ps).1.m_bodyDef =
          ⟨b2BodyType.b2_staticBody,
            ⟨((X : ℚ) + (width : ℚ) / 2) / 100, ((Y : ℚ) + (height : ℚ) / 2) / 100⟩⟩ ∧
        (Platform.ctor E X Y width height world ps).1.m_body =
          (E.b2CreateBody world (Platform.ctor E X Y width height world ps).1.m_bodyDef).1 ∧
        (Platform.ctor E X Y width height world ps).1.m_boundingBox =
          b2MakeBox (((width : ℚ) / 2) / 100) (((height : ℚ) / 2) / 100) ∧
        (Platform.ctor E X Y width height world ps).2.1 =
          E.b2CreatePolygonShape
            (E.b2CreateBody world (Platform.ctor E X Y width height world ps).1.m_bodyDef).2
            (Platform.ctor E X Y width height world ps).1.m_body E.b2DefaultShapeDef
            (Platform.ctor E X Y width height world ps).1.m_boundingBox ∧
        (Platform.ctor E X Y width height world ps).2.2 =
          ps ++ [(Platform.ctor E X Y width height world ps).1]) ∧
    (∀ (X Y rdWidth rdHeight : Int) (world : W),
      (Box.ctor E X Y rdWidth rdHeight world).1.m_position =
          ⟨((X : ℚ) + ((getRand 4 20 rdWidth : Int) : ℚ) / 2) / 100,
            ((Y : ℚ) + ((getRand 4 20 rdHeight : Int) : ℚ) / 2) / 100⟩ ∧
        (Box.ctor E X Y rdWidth rdHeight world).1.m_boundingBoxSize =
          ⟨(((getRand 4 20 rdWidth : Int) : ℚ) / 2) / 100,
            (((getRand 4 20 rdHeight : Int) : ℚ) / 2) / 100⟩ ∧
        (Box.ctor E X Y rdWidth rdHeight world).1.m_bodyDef =
          ⟨b2BodyType.b2_dynamicBody, (Box.ctor E X Y rdWidth rdHeight world).1.m_position⟩ ∧
        (Box.ctor E X Y rdWidth rdHeight world).1.m_body =
          (E.b2CreateBody world (Box.ctor E X Y rdWidth rdHeight world).1.m_bodyDef).1 ∧
        (Box.ctor E X Y rdWidth rdHeight world).1.m_boundingBox =
          b2MakeBox ((((getRand 4 20 rdWidth : Int) : ℚ) / 2) / 100)
            ((((getRand 4 20 rdHeight : Int) : ℚ) / 2) / 100) ∧
        (Box.ctor E X Y rdWidth rdHeight world).2 =
          E.b2CreatePolygonShape
            (E.b2CreateBody world (Box.ctor E X Y rdWidth rdHeight world).1.m_bodyDef).2
            (Box.ctor E X Y rdWidth rdHeight world).1.m_body
            (Box.ctor E X Y rdWidth rdHeight world).1.m_shapeDef
            (Box.ctor E X Y rdWidth rdHeight world).1.m_boundingBox) ∧
    (∀ (world : W) (ps : List Platform),
      (Platform.ctor E 30 420 250 30 world ps).1.m_position = ⟨155 / 100, 435 / 100⟩ ∧
        (Platform.ctor E 30 420 250 30 world ps).1.m_boundingBoxSize =
          ⟨125 / 100, 15 / 100⟩ ∧
        (Platform.ctor E 0 0 251 31 world ps).1.m_boundingBoxSize =
          ⟨1255 / 1000, 155 / 1000⟩ ∧
        (Platform.ctor E 0 0 251 31 world ps).1.m_boundingBoxSize ≠
          ⟨(((251 / 2 : Int) : ℚ)) / 100, (((31 / 2 : Int) : ℚ)) / 100⟩) := by
  refine ⟨fun X Y width height world ps => ⟨rfl, rfl, rfl, rfl, rfl, rfl, rfl⟩,
    fun X Y rdWidth rdHeight world => ⟨rfl, rfl, rfl, rfl, rfl, rfl⟩, fun world ps => ?_⟩
  simp only [Platform.ctor, px2MVec, ppm]
  refine ⟨by norm_num, by norm_num, by norm_num, ?_⟩
  intro h
  have hx := congrArg b2Vec2.x h
  norm_num at hx

/-- Claim C6 fails on the `float` arithmetic of the code: for `Platform (30, 420, 250, 30)`
the constructor holds the centre `(6501171/4194304, 9122611/2097152)` and the half-extents
`(1.25, 5033165/33554432)`, the binary32 values nearest to `1.55`, `4.35` and `0.15` and
not these numbers; and for `X = 2 ^ 24 + 1` the conversion of the `int` to `float` already
rounds, so the centre `5368709/32` is not even the binary32 value nearest to the
formula's `(2 ^ 24 + 1) / 100`, which is `10737419/64`. -/
theorem construction_geometry_rounds_in_binary32 :
    F32.Platform.m_position 30 420 250 30 = some ⟨6501171 * 2 ^ 127, 9122611 * 2 ^ 128⟩ ∧
      F32.Platform.m_boundingBoxSize 250 30 = some ⟨5 * 2 ^ 147, 5033165 * 2 ^ 124⟩ ∧
      F32.toRat (6501171 * 2 ^ 127) = 6501171 / 4194304 ∧
      F32.toRat (9122611 * 2 ^ 128) = 9122611 / 2097152 ∧
      F32.toRat (5 * 2 ^ 147) = 125 / 100 ∧
      F32.toRat (5033165 * 2 ^ 124) = 5033165 / 33554432 ∧
      F32.toRat (6501171 * 2 ^ 127) ≠ 155 / 100 ∧
      F32.toRat (9122611 * 2 ^ 128) ≠ 435 / 100 ∧
      F32.toRat (5033165 * 2 ^ 124) ≠ 15 / 100 ∧
      F32.castInt (2 ^ 24 + 1) = some (F32.ofInt (2 ^ 24)) ∧
      F32.Platform.m_position (2 ^ 24 + 1) 0 0 0 = some ⟨5368709 * 2 ^ 144, 0⟩ ∧
      F32.nearestVec ((((2 ^ 24 + 1 : Int) : ℚ) + ((0 : Int) : ℚ) / 2) / 100)
          ((((0 : Int) : ℚ) + ((0 : Int) : ℚ) / 2) / 100) =
        some ⟨10737419 * 2 ^ 143, 0⟩ := by
  obtain ⟨g1, g2, g3, g4⟩ := F32.geometry_examples
  obtain ⟨t1, t2, t3, t4⟩ := F32.toRat_examples
  refine ⟨g1, g2, t1, t2, t3, t4, ?_, ?_, ?_, g3, g4, ?_⟩
  · rw [t1]; norm_num
  · rw [t2]; norm_num
  · rw [t4]; norm_num
  · have hx := F32.nearest_div (2 * (2 ^ 24 + 1) + 0) 200 (by norm_num)
    have hy := F32.nearest_div (2 * 0 + 0) 200 (by norm_num)
    rw [F32.centre_formula, F32.centre_formula]
    simp only [Nat.cast_ofNat] at hx hy
    simp only [F32.nearestVec, hx, hy]
    decide

/-- Claim C6, amended.  In the binary32 arithmetic of the code, for every integer pixel
rectangle `(X, Y, width, height)` with `|X|`, `|width|`, `|2 X + width|` and `|Y|`,
`|height|`, `|2 Y + height|` below `2 ^ 24`, the `Platform` constructor sets the centre to
the binary32 values nearest to `((X + width/2)/100, (Y + height/2)/100)` and the
half-extents to the binary32 values nearest to `((width/2)/100, (height/2)/100)`; the
halves `width/2` and `height/2` are exact (not truncated).  The `Box` constructor does the
same from its spawn point and its random size.  A nearest binary32 value `r` of `q` has
`|r - q| ≤ |q| / 2 ^ 24 + 1 / 2 ^ 150` and exists for `|q| ≤ 2 ^ 127`.
`Platform (30, 420, 250, 30)` has centre `(6501171/4194304, 9122611/2097152)`, the
binary32 values nearest to `1.55` and `4.35`, and half-extents `(1.25, 5033165/33554432)`,
the second the binary32 value nearest to `0.15`.

In arithmetic without rounding the constructors give the formula's values themselves,
for every integer rectangle: centre `((X + width/2)/100, (Y + height/2)/100)`,
half-extents `((width/2)/100, (height/2)/100)`, the body created at that centre and the
box shape of those half-extents attached to it; there `Platform (30, 420, 250, 30)` has centre
`(1.55, 4.35)` and half-extents `(1.25, 0.15)`, and an odd size such as `251 × 31` gives
half-extents `(1.255, 0.155)`, not those of the truncated halves `125` and `15`. -/
theorem construction_geometry :
    (∀ X Y width height : Int, |X| < 2 ^ 24 → |width| < 2 ^ 24 → |2 * X + width| < 2 ^ 24 →
      |Y| < 2 ^ 24 → |height| < 2 ^ 24 → |2 * Y + height| < 2 ^ 24 →
      F32.Platform.m_position X Y width height =
        F32.nearestVec (((X : ℚ) + (width : ℚ) / 2) / 100)
          (((Y : ℚ) + (height : ℚ) / 2) / 100)) ∧
    (∀ width height : Int, |width| < 2 ^ 24 → |height| < 2 ^ 24 →
      F32.Platform.m_boundingBoxSize width height =
          F32.nearestVec (((width : ℚ) / 2) / 100) (((height : ℚ) / 2) / 100) ∧
        (F32.halfPx width).map F32.toRat = some ((width : ℚ) / 2) ∧
        (F32.halfPx height).map F32.toRat = some ((height : ℚ) / 2)) ∧
    (∀ X Y rdWidth rdHeight : Int, |X| < 2 ^ 24 → |getRand 4 20 rdWidth| < 2 ^ 24 →
      |2 * X + getRand 4 20 rdWidth| < 2 ^ 24 →
      |Y| < 2 ^ 24 → |getRand 4 20 rdHeight| < 2 ^ 24 →
      |2 * Y + getRand 4 20 rdHeight| < 2 ^ 24 →
      F32.Box.m_position X Y rdWidth rdHeight =
        F32.nearestVec (((X : ℚ) + ((getRand 4 20 rdWidth : Int) : ℚ) / 2) / 100)
          (((Y : ℚ) + ((getRand 4 20 rdHeight : Int) : ℚ) / 2) / 100)) ∧
    (∀ rdWidth rdHeight : Int, |getRand 4 20 rdWidth| < 2 ^ 24 →
      |getRand 4 20 rdHeight| < 2 ^ 24 →
      F32.Box.m_boundingBoxSize rdWidth rdHeight =
        F32.nearestVec ((((getRand 4 20 rdWidth : Int) : ℚ) / 2) / 100)
          ((((getRand 4 20 rdHeight : Int) : ℚ) / 2) / 100)) ∧
    (∀ (q : ℚ) (r : F32.Val), F32.nearest q = some r →
      |F32.toRat r - q| ≤ |q| / 2 ^ 24 + 1 / 2 ^ 150) ∧
    (∀ q : ℚ, |q| ≤ 2 ^ 127 → ∃ r, F32.nearest q = some r) ∧
    (F32.Platform.m_position 30 420 250 30 = F32.nearestVec (155 / 100) (435 / 100) ∧
      F32.Platform.m_boundingBoxSize 250 30 = F32.nearestVec (125 / 100) (15 / 100) ∧
      F32.Platform.m_position 30 420 250 30 =
        some ⟨6501171 * 2 ^ 127, 9122611 * 2 ^ 128⟩ ∧
      F32.Platform.m_boundingBoxSize 250 30 = some ⟨5 * 2 ^ 147, 5033165 * 2 ^ 124⟩ ∧
      F32.toRat (6501171 * 2 ^ 127) = 6501171 / 4194304 ∧
      F32.toRat (9122611 * 2 ^ 128) = 9122611 / 2097152 ∧
      F32.toRat (5 * 2 ^ 147) = 125 / 100 ∧
      F32.toRat (5033165 * 2 ^ 124) = 5033165 / 33554432) ∧
    (∀ (X Y width height : Int) (world : W) (ps : List Platform),
      (Platform.ctor E X Y width height world ps).1.m_position =
          ⟨((X : ℚ) + (width : ℚ) / 2) / 100, ((Y : ℚ) + (height : ℚ) / 2) / 100⟩ ∧
        (Platform.ctor E X Y width height world ps).1.m_boundingBoxSize =
          ⟨((width : ℚ) / 2) / 100, ((height : ℚ) / 2) / 100⟩ ∧
        (Platform.ctor E X Y width height world ps).1.m_bodyDef =
          ⟨b2BodyType.b2_staticBody,
            ⟨((X : ℚ) + (width : ℚ) / 2) / 100, ((Y : ℚ) + (height : ℚ) / 2) / 100⟩⟩ ∧
        (Platform.ctor E X Y width height world ps).1.m_body =
          (E.b2CreateBody world (Platform.ctor E X Y width height world ps).1.m_bodyDef).1 ∧
        (Platform.ctor E X Y width height world ps).1.m_boundingBox =
          b2MakeBox (((width : ℚ) / 2) / 100) (((height : ℚ) / 2) / 100) ∧
        (Platform.ctor E X Y width height world ps).2.1 =
          E.b2CreatePolygonShape
            (E.b2CreateBody world (Platform.ctor E X Y width height world ps).1.m_bodyDef).2
            (Platform.ctor E X Y width height world ps).1.m_body E.b2DefaultShapeDef
            (Platform.ctor E X Y width height world ps).1.m_boundingBox ∧
        (Platform.ctor E X Y width height world ps).2.2 =
          ps ++ [(Platform.ctor E X Y width height world ps).1]) ∧
    (∀ (X Y rdWidth rdHeight : Int) (world : W),
      (Box.ctor E X Y rdWidth rdHeight world).1.m_position =
          ⟨((X : ℚ) + ((getRand 4 20 rdWidth : Int) : ℚ) / 2) / 100,
            ((Y : ℚ) + ((getRand 4 20 rdHeight : Int) : ℚ) / 2) / 100⟩ ∧
        (Box.ctor E X Y rdWidth rdHeight world).1.m_boundingBoxSize =
          ⟨(((getRand 4 20 rdWidth : Int) : ℚ) / 2) / 100,
            (((getRand 4 20 rdHeight : Int) : ℚ) / 2) / 100⟩ ∧
        (Box.ctor E X Y rdWidth rdHeight world).1.m_bodyDef =
          ⟨b2BodyType.b2_dynamicBody, (Box.ctor E X Y rdWidth rdHeight world).1.m_position⟩ ∧
        (Box.ctor E X Y rdWidth rdHeight world).1.m_body =
          (E.b2CreateBody world (Box.ctor E X Y rdWidth rdHeight world).1.m_bodyDef).1 ∧
        (Box.ctor E X Y rdWidth rdHeight world).1.m_boundingBox =
          b2MakeBox ((((getRand 4 20 rdWidth : Int) : ℚ) / 2) / 100)
            ((((getRand 4 20 rdHeight : Int) : ℚ) / 2) / 100) ∧
        (Box.ctor E X Y rdWidth rdHeight world).2 =
          E.b2CreatePolygonShape
            (E.b2CreateBody world (Box.ctor E X Y rdWidth rdHeight world).1.m_bodyDef).2
            (Box.ctor E X Y rdWidth rdHeight world).1.m_body
            (Box.ctor E X Y rdWidth rdHeight world).1.m_shapeDef
            (Box.ctor E X Y rdWidth rdHeight world).1.m_boundingBox) ∧
    (∀ (world : W) (ps : List Platform),
      (Platform.ctor E 30 420 250 30 world ps).1.m_position = ⟨155 / 100, 435 / 100⟩ ∧
        (Platform.ctor E 30 420 250 30 world ps).1.m_boundingBoxSize =
          ⟨125 / 100, 15 / 100⟩ ∧
        (Platform.ctor E 0 0 251 31 world ps).1.m_boundingBoxSize =
          ⟨1255 / 1000, 155 / 1000⟩ ∧
        (Platform.ctor E 0 0 251 31 world ps).1.m_boundingBoxSize ≠
          ⟨(((251 / 2 : Int) : ℚ)) / 100, (((31 / 2 : Int) : ℚ)) / 100⟩) := by
  refine ⟨F32.position_eq, ?_, ?_, ?_, F32.nearest_err, F32.nearest_isSome, ?_, ?_⟩
  · intro width height hw hh
    exact ⟨F32.boundingBoxSize_eq width height hw hh, F32.halfPx_toRat width hw,
      F32.halfPx_toRat height hh⟩
  · intro X Y rdWidth rdHeight hX hw hXw hY hh hYh
    exact F32.position_eq X Y _ _ hX hw hXw hY hh hYh
  · intro rdWidth rdHeight hw hh
    exact F32.boundingBoxSize_eq _ _ hw hh
  · obtain ⟨g1, g2, _, _⟩ := F32.geometry_examples
    obtain ⟨t1, t2, t3, t4⟩ := F32.toRat_examples
    refine ⟨?_, ?_, g1, g2, t1, t2, t3, t4⟩
    · have h := F32.position_eq 30 420 250 30 (by norm_num) (by norm_num) (by norm_num)
        (by norm_num) (by norm_num) (by norm_num)
      have e1 : (((30 : Int) : ℚ) + ((250 : Int) : ℚ) / 2) / 100 = 155 / 100 := by norm_num
      have e2 : (((420 : Int) : ℚ) + ((30 : Int) : ℚ) / 2) / 100 = 435 / 100 := by norm_num
      rw [e1, e2] at h
      exact h
    · have h := F32.boundingBoxSize_eq 250 30 (by norm_num) (by norm_num)
      have e1 : (((250 : Int) : ℚ) / 2) / 100 = 125 / 100 := by norm_num
      have e2 : (((30 : Int) : ℚ) / 2) / 100 = 15 / 100 := by norm_num
      rw [e1, e2] at h
      exact h
  · exact exact_construction_geometry E

/-- Claim C6, amended, at the first platform of `main`: its rectangle is within the range,
and its centre is the pair of binary32 values nearest to the formula's. -/
theorem construction_geometry_witness :
    (|(30 : Int)| < 2 ^ 24 ∧ |(250 : Int)| < 2 ^ 24 ∧ |2 * (30 : Int) + 250| < 2 ^ 24 ∧
        |(420 : Int)| < 2 ^ 24 ∧ |(30 : Int)| < 2 ^ 24 ∧ |2 * (420 : Int) + 30| < 2 ^ 24) ∧
      F32.Platform.m_position 30 420 250 30 =
        F32.nearestVec ((((30 : Int) : ℚ) + ((250 : Int) : ℚ) / 2) / 100)
          ((((420 : Int) : ℚ) + ((30 : Int) : ℚ) / 2) / 100) :=
  ⟨⟨by norm_num, by norm_num, by norm_num, by norm_num, by norm_num, by norm_num⟩,
    (construction_geometry refEngine).1 30 420 250 30 (by norm_num) (by norm_num)
      (by norm_num) (by norm_num) (by norm_num) (by norm_num)⟩

/-- Claim C8, as the code has it: the `Box` constructor leaves the cached rotation at the
pair `(0, 0)`, cosine component `0`, which is not the identity rotation `(1, 0)`. -/
theorem box_initial_rotation (X Y rdWidth rdHeight : Int) (world : W) :
    (Box.ctor E X Y rdWidth rdHeight world).1.m_rotation = ⟨0, 0⟩ ∧
      (Box.ctor E X Y rdWidth rdHeight world).1.m_rotation.c = 0 ∧
      (Box.ctor E X Y rdWidth rdHeight world).1.m_rotation ≠ b2Rot_identity := by
  refine ⟨rfl, rfl, ?_⟩
  show (⟨0, 0⟩ : b2Rot) ≠ ⟨1, 0⟩
  intro h
  have hc := congrArg b2Rot.c h
  norm_num at hc

/-- Claim C10.  For every box with cached position `p` and size `(w, h)`, `drawBoxes`
passes the rotated draw call a rectangle with reference point `m2Px p` and size `(w, h)`
and the pivot `(w/2, h/2)`; the unrotated rectangle so drawn has top-left corner
`m2Px p - (w/2, h/2)` and centre `m2PxVec p`.  For a box just constructed at the spawn
point `(X, Y)` that top-left corner is `(X, Y)`. -/
theorem draw_matches_construction :
    (∀ box : Box,
      Box.drawBox E box =
          DrawCmd.DrawRectanglePro
            ⟨m2Px box.m_position.x, m2Px box.m_position.y, box.m_width, box.m_height⟩
            ⟨(box.m_width : ℚ) / 2, (box.m_height : ℚ) / 2⟩
            (E.b2Rot_GetAngle box.m_rotation * E.RAD2DEG) Color.RED ∧
        unrotatedTopLeft
            ⟨m2Px box.m_position.x, m2Px box.m_position.y, box.m_width, box.m_height⟩
            ⟨(box.m_width : ℚ) / 2, (box.m_height : ℚ) / 2⟩ =
          ⟨m2Px box.m_position.x - (box.m_width : ℚ) / 2,
            m2Px box.m_position.y - (box.m_height : ℚ) / 2⟩ ∧
        centreOf
            (unrotatedTopLeft
              ⟨m2Px box.m_position.x, m2Px box.m_position.y, box.m_width, box.m_height⟩
              ⟨(box.m_width : ℚ) / 2, (box.m_height : ℚ) / 2⟩)
            ⟨m2Px box.m_position.x, m2Px box.m_position.y, box.m_width, box.m_height⟩ =
          m2PxVec box.m_position) ∧
    (∀ (X Y rdWidth rdHeight : Int) (world : W),
      ∃ (rec : Rectangle) (origin : Vector2) (rotation : ℚ),
        Box.drawBox E (Box.ctor E X Y rdWidth rdHeight world).1 =
            DrawCmd.DrawRectanglePro rec origin rotation Color.RED ∧
          unrotatedTopLeft rec origin = ⟨X, Y⟩) := by
  constructor
  · intro box
    refine ⟨rfl, rfl, ?_⟩
    simp only [centreOf, unrotatedTopLeft, m2PxVec, m2Px]
    congr 1 <;> ring
  · intro X Y rdWidth rdHeight world
    refine ⟨_, _, _, rfl, ?_⟩
    simp only [unrotatedTopLeft, Box.ctor, px2MVec, m2Px, ppm]
    congr 1 <;> ring

end Geometry

end HelloBox2D
